import Mathlib

/-!
Verification of the paper-parsing/rendering core of the `agent-papers-cli`
repository against its natural-language specification.

The Python sources are shallowly embedded as executable Lean definitions:
strings become `String` / `List Char`, dicts with optional keys become
structures with `Option` fields, on-disk JSON stores and the PDF geometry
layer become explicit data passed to the pure logic that the claims are
about.  Each definition's doc comment names the Python function it embeds.
-/

namespace Paper

/-- Embeds `models.Span`: a half-open character range into `raw_text`.
(`end` is a Lean keyword, so the field is named `stop`.) -/
structure Span where
  start : Nat
  stop : Nat
deriving Repr, DecidableEq

/-- Embeds `models.Link`.  `kind` is the Python string tag
("external" / "internal" / "citation"); `target_xy` and the box geometry
are irrelevant to the claims and omitted. -/
structure Link where
  kind : String
  text : String
  url : String
  target_page : Int
  page : Nat
  span : Span
  dest_name : String := ""
deriving Repr, DecidableEq

/-- Embeds `models.Sentence`. -/
structure Sentence where
  text : String
  span : Span
  page : Nat
deriving Repr, DecidableEq

/-- Embeds `models.Section` (the fields the claims use). -/
structure Sect where
  heading : String
  level : Nat
  content : String
  sentences : List Sentence := []
  spans : List Span := []
  page_start : Nat := 0
  page_end : Nat := 0
deriving Repr, DecidableEq

/-- Embeds `models.LayoutElement` (the fields the registry uses). -/
structure LayoutElement where
  kind : String
  label : String := ""
deriving Repr, DecidableEq

/-- Embeds `models.Metadata` (only the title matters to the claims). -/
structure Metadata where
  title : String := ""
  arxiv_id : String := ""
deriving Repr, DecidableEq

/-- Embeds `models.Document`. -/
structure Document where
  metadata : Metadata := {}
  sections : List Sect := []
  raw_text : String := ""
  links : List Link := []
  layout_elements : List LayoutElement := []
deriving Repr, DecidableEq

/-! ## C10 — `storage._sanitize_paper_id` -/

/-- The character transformation steps of `storage._sanitize_paper_id`:
`paper_id.strip()`, then `.replace("/", "_").replace("\\", "_")`,
then the `while paper_id.startswith(".")` loop dropping leading dots. -/
def sanitizeSteps (s : List Char) : List Char :=
  let stripped := ((s.dropWhile Char.isWhitespace).reverse.dropWhile Char.isWhitespace).reverse
  let replaced := stripped.map (fun c => if c = '/' ∨ c = '\\' then '_' else c)
  replaced.dropWhile (· = '.')

/-- Embeds `storage._sanitize_paper_id`.  Python raises `ValueError` when the
processed id is empty; the embedding returns `none` there. -/
def sanitizePaperId (s : String) : Option String :=
  let d := sanitizeSteps s.data
  if d.isEmpty then none else some (String.mk d)

/-! ## C5 — `highlighter.add_highlight` / `remove_highlight` over the
per-paper highlight store (`storage.load_highlights` / `save_highlights`
read and write the JSON list; a store is that list). -/

/-- Embeds `models.Highlight` (creation timestamp is passed in by the
caller of the embedding since `datetime.now` is ambient). -/
structure Highlight where
  id : Nat
  text : String
  page : Nat
  color : String := "yellow"
  note : String := ""
  created_at : String := ""
deriving Repr, DecidableEq

/-- `max((h["id"] for h in highlights), default=0)` from `add_highlight`. -/
def maxHighlightId (store : List Highlight) : Nat :=
  store.foldr (fun h m => max h.id m) 0

/-- Embeds `highlighter.add_highlight`: loads the store, assigns
`id = max existing + 1`, appends, saves.  Returns the new store paired
with the created highlight. -/
def addHighlight (store : List Highlight) (text : String) (page : Nat)
    (color : String := "yellow") (note : String := "") (created_at : String := "") :
    List Highlight × Highlight :=
  let next_id := maxHighlightId store + 1
  let hl : Highlight := ⟨next_id, text, page, color, note, created_at⟩
  (store ++ [hl], hl)

/-- Embeds `highlighter.remove_highlight`: filters by id; when nothing was
removed it returns `False` without saving (store unchanged). -/
def removeHighlight (store : List Highlight) (highlight_id : Nat) :
    List Highlight × Bool :=
  let filtered := store.filter (fun h => h.id ≠ highlight_id)
  if filtered.length = store.length then (store, false) else (filtered, true)

/-! ## C3/C4 — `renderer.build_ref_registry` -/

/-- Embeds `renderer.RefEntry`. -/
structure RefEntry where
  ref_id : String
  kind : String
  label : String
  target : String
deriving Repr, DecidableEq

/-- Python's `str.title()` restricted to the single lowercase words it is
applied to in `build_ref_registry` ("figure" / "table" / "equation"). -/
def pyTitle (s : String) : String :=
  match s.data with
  | [] => ""
  | c :: rest => String.mk (c.toUpper :: rest)

/-- The section loop of `build_ref_registry`
(`for i, section in enumerate(doc.sections, 1)`); `i` is the enumeration
counter, so the top-level call passes 1. -/
def sectionEntries : List Sect → Nat → List RefEntry
  | [], _ => []
  | s :: rest, i =>
    ⟨"s" ++ toString i, "section", s.heading, s.heading⟩ :: sectionEntries rest (i + 1)

/-- `_REF_PREFIX` lookup of `build_ref_registry`.  Python raises `KeyError`
for a kind outside the table; the theorems restrict to the three valid
kinds, for which the if-chain agrees with the dict. -/
def refPrefix (k : String) : String :=
  if k = "figure" then "f" else if k = "table" then "t" else "eq"

/-- The layout-element loop of `build_ref_registry`: per-kind counters
(`counters[elem.kind] += 1`), id `prefix + count`, label
`elem.label or f"{elem.kind.title()} {count}"`. -/
def layoutEntries : List LayoutElement → Nat → Nat → Nat → List RefEntry
  | [], _, _, _ => []
  | e :: rest, nf, nt, ne =>
    if e.kind = "figure" then
      ⟨refPrefix e.kind ++ toString (nf + 1), e.kind,
        if e.label = "" then pyTitle e.kind ++ " " ++ toString (nf + 1) else e.label,
        e.label⟩ :: layoutEntries rest (nf + 1) nt ne
    else if e.kind = "table" then
      ⟨refPrefix e.kind ++ toString (nt + 1), e.kind,
        if e.label = "" then pyTitle e.kind ++ " " ++ toString (nt + 1) else e.label,
        e.label⟩ :: layoutEntries rest nf (nt + 1) ne
    else
      ⟨refPrefix e.kind ++ toString (ne + 1), e.kind,
        if e.label = "" then pyTitle e.kind ++ " " ++ toString (ne + 1) else e.label,
        e.label⟩ :: layoutEntries rest nf nt (ne + 1)

/-- The external-link loop of `build_ref_registry`: unique URLs in order
of first appearance (`seen_urls` set, `ext_idx` counter). -/
def externalEntries : List Link → List String → Nat → List RefEntry
  | [], _, _ => []
  | l :: rest, seen_urls, ext_idx =>
    if l.kind = "external" ∧ l.url ∉ seen_urls then
      ⟨"e" ++ toString (ext_idx + 1), "external",
        if l.text = "" then l.url else l.text, l.url⟩
        :: externalEntries rest (l.url :: seen_urls) (ext_idx + 1)
    else externalEntries rest seen_urls ext_idx

/-- The citation loop of `build_ref_registry`: unique marker texts in
order of first appearance (`seen_cites` set, `cite_idx` counter). -/
def citationEntries : List Link → List String → Nat → List RefEntry
  | [], _, _ => []
  | l :: rest, seen_cites, cite_idx =>
    if l.kind = "citation" ∧ l.text ∉ seen_cites then
      ⟨"c" ++ toString (cite_idx + 1), "citation", l.text, l.text⟩
        :: citationEntries rest (l.text :: seen_cites) (cite_idx + 1)
    else citationEntries rest seen_cites cite_idx

/-- Embeds `renderer.build_ref_registry`: the Python function appends the
four passes into one list in this fixed order. -/
def buildRefRegistry (doc : Document) : List RefEntry :=
  sectionEntries doc.sections 1
    ++ layoutEntries doc.layout_elements 0 0 0
    ++ externalEntries doc.links [] 0
    ++ citationEntries doc.links [] 0

/-! Spec-side definitions for C3.  These follow the WORDS of the spec
("sections `s1..sN` in document order; layout elements `f1..`, `t1..`,
`eq1..` per kind; external links `e1..` by first-seen URL; citations
`c1..` by first-seen marker text") rather than the code, to be compared
with `buildRefRegistry`. -/

/-- Deduplication keeping the first occurrence of each element, used to
state "by first-seen URL / marker text". -/
def firstSeen (l : List String) : List String :=
  l.foldl (fun acc u => if u ∈ acc then acc else acc ++ [u]) []

/-- Spec-side layout ids: each element is numbered by how many elements of
the same kind precede it (`processed` is the already-numbered prefix). -/
def specLayoutIds (processed : List LayoutElement) : List LayoutElement → List String
  | [] => []
  | e :: rest =>
    (refPrefix e.kind ++ toString (processed.countP (fun x => x.kind = e.kind) + 1))
      :: specLayoutIds (processed ++ [e]) rest

/-- Spec-side registry ids, a pure function of the `Document` contents:
`s1..sN`, per-kind layout ids, `e1..eK` for the K first-seen distinct
external URLs, `c1..cM` for the M first-seen distinct citation markers. -/
def refIdsSpec (doc : Document) : List String :=
  (List.range doc.sections.length).map (fun i => "s" ++ toString (i + 1))
    ++ specLayoutIds [] doc.layout_elements
    ++ (List.range (firstSeen ((doc.links.filter
          (fun l => l.kind = "external")).map (fun l => l.url))).length).map
        (fun i => "e" ++ toString (i + 1))
    ++ (List.range (firstSeen ((doc.links.filter
          (fun l => l.kind = "citation")).map (fun l => l.text))).length).map
        (fun i => "c" ++ toString (i + 1))

/-- Counting helper: how many fresh (not yet seen) keys a key list
contributes, in first-seen order. -/
def countNewKeys : List String → List String → Nat
  | [], _ => 0
  | u :: rest, seen =>
    if u ∈ seen then countNewKeys rest seen else countNewKeys rest (u :: seen) + 1

/-! ## C9 — write-to-temp-then-rename for the on-disk caches.
Each cache-mutating function is embedded as the sequence of filesystem
mutations it performs (`write_text` and `rename` calls, in order); the
JSON payload is carried as an opaque string. -/

/-- A filesystem mutation. -/
inductive FsOp where
  | write (path : String) (content : String)
  | rename (src : String) (dst : String)
deriving Repr, DecidableEq

/-- Python's `Path.with_suffix(".tmp")` for the paths used by the storage
layer: in the final path component, the extension after the last
non-leading dot is replaced by `.tmp` (a name whose only dot is leading,
like `.last_header`, just gets `.tmp` appended). -/
def pyWithSuffixTmp (p : String) : String :=
  let revAll := p.data.reverse
  let nameRev := revAll.takeWhile (· ≠ '/')
  let dir := (revAll.drop nameRev.length).reverse
  let name := nameRev.reverse
  let afterDotRev := nameRev.takeWhile (· ≠ '.')
  let stem :=
    if afterDotRev.length + 1 < name.length ∧ afterDotRev.length < name.length
    then name.take (name.length - afterDotRev.length - 1) else name
  String.mk (dir ++ stem ++ ".tmp".data)

/-- Embeds `models.Document.save`: a single direct `write_text` to the
parsed-document cache path. -/
def documentSaveOps (path : String) (content : String) : List FsOp :=
  [.write path content]

/-- Embeds `storage.save_metadata`: a single direct `write_text` to
`metadata.json`. -/
def saveMetadataOps (paperDir : String) (content : String) : List FsOp :=
  [.write (paperDir ++ "/metadata.json") content]

/-- Embeds the write part of `storage.update_index`: write to
`index.tmp`, then rename over `index.json`. -/
def updateIndexOps (papersDir : String) (content : String) : List FsOp :=
  let p := papersDir ++ "/index.json"
  [.write (pyWithSuffixTmp p) content, .rename (pyWithSuffixTmp p) p]

/-- Embeds `storage.save_highlights`: write to `highlights.tmp`, then
rename over `highlights.json`. -/
def saveHighlightsOps (paperDir : String) (content : String) : List FsOp :=
  let p := paperDir ++ "/highlights.json"
  [.write (pyWithSuffixTmp p) content, .rename (pyWithSuffixTmp p) p]

/-- Embeds `layout.save_layout`: write to `layout.tmp`, then rename over
`layout.json`. -/
def saveLayoutOps (paperDir : String) (content : String) : List FsOp :=
  let p := paperDir ++ "/layout.json"
  [.write (pyWithSuffixTmp p) content, .rename (pyWithSuffixTmp p) p]

/-- Embeds `storage.mark_header_shown`: write to `.last_header.tmp`, then
rename over `.last_header`. -/
def markHeaderShownOps (papersDir : String) (content : String) : List FsOp :=
  let p := papersDir ++ "/.last_header"
  [.write (pyWithSuffixTmp p) content, .rename (pyWithSuffixTmp p) p]

/-- The write-to-temp-then-rename pattern: full content written to a
distinct temporary path, then renamed over the target, so a reader never
observes a partially written target. -/
def atomicReplace (ops : List FsOp) (target : String) : Prop :=
  ∃ tmp content, tmp ≠ target ∧
    ops = [FsOp.write tmp content, FsOp.rename tmp target]

/-! ## C1/C7 — `parser._segment_sections` and
`parser._merge_heading_fragments` -/

/-- Python's `str.strip()` (whitespace from both ends). -/
def pyStrip (l : List Char) : List Char :=
  ((l.dropWhile Char.isWhitespace).reverse.dropWhile Char.isWhitespace).reverse

/-- The fields of `parser._Line` that `_segment_sections` reads. -/
structure LineRec where
  text : String
  page : Nat
  char_start : Nat
  char_end : Nat
deriving Repr, DecidableEq

/-- A heading dict as produced by the heading detectors:
`char_start` / `char_end` / `font_size` are optional keys (absent for
unresolved outline headings; `font_size` absent for all outline headings
and for already-merged headings).  `_extract_lines` rounds every font
size to one decimal (`round(span["size"], 1)`), so sizes are embedded
exactly as integer tenths of a point; `abs(a - b) < 1.0` pt becomes
`(a - b).natAbs < 10` tenths. -/
structure HeadingRec where
  heading : String
  level : Nat
  page : Nat
  char_start : Option Nat := none
  char_end : Option Nat := none
  font_size : Option Int := none
deriving Repr, DecidableEq

/-- The `page_end` scan of `_segment_sections`: the maximal page of any
line whose `char_start` lies in `[start, stop)`, seeded with the
heading's page. -/
def sectionPageEnd (lines : List LineRec) (start stop page_start : Nat) : Nat :=
  lines.foldl
    (fun acc ln => if start ≤ ln.char_start ∧ ln.char_start < stop
      then max acc ln.page else acc)
    page_start

/-- One iteration of the `_segment_sections` loop: a section runs from
its heading's `char_start` (default 0) to the next heading's
`char_start` (default `len(raw_text)`), or to the end of the document;
content is the stripped slice with the heading text stripped from its
front when it is a prefix. -/
def segmentLoop (raw : String) (lines : List LineRec) : List HeadingRec → List Sect
  | [] => []
  | h :: rest =>
    let start := h.char_start.getD 0
    let stop := match rest with
      | h2 :: _ => h2.char_start.getD raw.length
      | [] => raw.length
    let content0 := pyStrip ((raw.data.drop start).take (stop - start))
    let content :=
      if h.heading.data.isPrefixOf content0
      then pyStrip (content0.drop h.heading.length) else content0
    { heading := h.heading, level := h.level, content := String.mk content,
      sentences := [], spans := [⟨start, stop⟩],
      page_start := h.page,
      page_end := sectionPageEnd lines start stop h.page }
      :: segmentLoop raw lines rest

/-- Embeds `parser._segment_sections`: with no headings the whole raw
text becomes one "(Full Document)" section, otherwise one section per
heading. -/
def segmentSections (raw : String) (lines : List LineRec)
    (headings : List HeadingRec) : List Sect :=
  if headings.isEmpty then
    [{ heading := "(Full Document)", level := 1, content := raw,
       sentences := [], spans := [⟨0, raw.length⟩],
       page_start := (lines.head?.map (fun ln => ln.page)).getD 0,
       page_end := (lines.getLast?.map (fun ln => ln.page)).getD 0 }]
  else segmentLoop raw lines headings

/-- The primary (`spans[0]`) span of each produced section. -/
def primarySpans (secs : List Sect) : List Span :=
  secs.filterMap (fun s => s.spans.head?)

/-- Python's `str.split()` (split on whitespace runs, dropping empties). -/
def pySplitWords : List Char → List (List Char)
  | [] => []
  | c :: rest =>
    if c.isWhitespace then pySplitWords rest
    else (c :: rest.takeWhile (fun x => ¬ x.isWhitespace))
      :: pySplitWords (rest.dropWhile (fun x => ¬ x.isWhitespace))
termination_by l => l.length
decreasing_by
  · simp
  · simp only [List.length_cons]
    exact Nat.lt_succ_of_le (List.dropWhile_sublist _).length_le

/-- `parser._SECTION_NUM_RE` = `^[A-Z]?\.?\d*\.?\d*$`, matched greedily
left to right (for this pattern greedy matching agrees with regex
backtracking: no later atom can consume what an earlier one rejected). -/
def sectionNumMatch (s : List Char) : Bool :=
  let s1 := match s with
    | c :: rest => if c.isUpper then rest else c :: rest
    | [] => []
  let s2 := match s1 with
    | '.' :: rest => rest
    | other => other
  let s3 := s2.dropWhile Char.isDigit
  let s4 := match s3 with
    | '.' :: rest => rest
    | other => other
  let s5 := s4.dropWhile Char.isDigit
  s5.isEmpty

/-- `parser._TRAILING_CONJUNCTIONS`. -/
def trailingConjunctions : List String :=
  ["and", "or", "of", "for", "in", "the", "with", "to", "a", "an", "on", "by"]

/-- `heading.split()[-1].lower() in _TRAILING_CONJUNCTIONS`.  (Python
raises `IndexError` on an all-whitespace heading; the embedding returns
`false` there — no heading reaching the merge is all-whitespace.) -/
def inConjLast (s : String) : Bool :=
  match (pySplitWords s.data).getLast? with
  | some w => trailingConjunctions.contains (String.mk (w.map Char.toLower))
  | none => false

/-- `abs(a - b) < 1.0` over the optional font sizes (in tenths of a
point), false when either key is absent (the `"font_size" in h`
guards). -/
def fontClose (a b : Option Int) : Bool :=
  match a, b with
  | some x, some y => decide ((y - x).natAbs < 10)
  | _, _ => false

/-- Case 1 guard of `_merge_heading_fragments`: bare section number,
same page, both font sizes present and within 1pt. -/
def case1Cond (h h2 : HeadingRec) : Bool :=
  sectionNumMatch (pyStrip h.heading.data) && (h2.page == h.page) &&
    fontClose h.font_size h2.font_size

/-- Case 2 guard of `_merge_heading_fragments`: heading ends with a
trailing conjunction/preposition, same page, font sizes within 1pt. -/
def case2Cond (h h2 : HeadingRec) : Bool :=
  inConjLast h.heading && (h2.page == h.page) &&
    fontClose h.font_size h2.font_size

/-- The greedy inner `while` guard of case 1: same page as the combined
heading, fragment has a font size within 1pt of the SECOND fragment's
(`next_h`, never updated), and the combined heading ends in a
conjunction or the fragment is a single non-number word. -/
def absorbCond (combined : HeadingRec) (next_fs : Option Int) (g : HeadingRec) : Bool :=
  (g.page == combined.page) && g.font_size.isSome &&
    decide ((g.font_size.getD 0 - next_fs.getD 0).natAbs < 10) &&
    (inConjLast combined.heading ||
      ((pySplitWords g.heading.data).length == 1 &&
        !sectionNumMatch (pyStrip g.heading.data)))

/-- The greedy inner `while` loop of case 1: absorbs fragments into the
combined heading, returning the final combined heading and how many
fragments were consumed. -/
def absorbFrags (combined : HeadingRec) (next_fs : Option Int) :
    List HeadingRec → HeadingRec × Nat
  | [] => (combined, 0)
  | g :: rest =>
    if absorbCond combined next_fs g then
      let c2 : HeadingRec := { combined with
        heading := combined.heading ++ " " ++ g.heading,
        char_end := g.char_end }
      let r := absorbFrags c2 next_fs rest
      (r.1, r.2 + 1)
    else (combined, 0)

/-- The `while i < len(headings)` loop of `_merge_heading_fragments`.
A merged heading carries no `font_size` key (`font_size := none`). -/
def mergeLoop : List HeadingRec → List HeadingRec
  | [] => []
  | [h] => [h]
  | h :: h2 :: rest =>
    if case1Cond h h2 then
      let combined0 : HeadingRec :=
        { heading := h.heading ++ " " ++ h2.heading,
          level := min h.level h2.level, page := h.page,
          char_start := h.char_start, char_end := h2.char_end,
          font_size := none }
      let r := absorbFrags combined0 h2.font_size rest
      r.1 :: mergeLoop (rest.drop r.2)
    else if case2Cond h h2 then
      { heading := h.heading ++ " " ++ h2.heading,
        level := min h.level h2.level, page := h.page,
        char_start := h.char_start, char_end := h2.char_end,
        font_size := none } :: mergeLoop rest
    else h :: mergeLoop (h2 :: rest)
termination_by l => l.length
decreasing_by
  · simp only [List.length_drop, List.length_cons]
    omega
  · simp only [List.length_cons]
    omega
  · simp

/-- Embeds `parser._merge_heading_fragments` (the `len < 2` early
return, then the merge loop). -/
def mergeHeadingFragments (headings : List HeadingRec) : List HeadingRec :=
  if headings.length < 2 then headings else mergeLoop headings

/-! ## C6 — `renderer._find_cite_end_in_text`.
The scanning loops (`str.find`, `re.finditer`) are embedded as linear
scans driven by a fuel argument equal to the number of remaining scan
positions (`len(text) + 1 - pos`), so that they are structurally
recursive and kernel-evaluable; the wrappers supply adequate fuel.
Python's Unicode `isalpha`/`isdigit`/`isupper`/`islower` coincide with
the ASCII classifiers on the texts involved. -/

/-- Fuel-driven scan for `text.find(pat, pos)`. -/
def findSubF (text pat : List Char) : Nat → Nat → Option Nat
  | 0, _ => none
  | fuel + 1, pos =>
    if pat.isPrefixOf (text.drop pos) then some pos
    else if text.length ≤ pos then none
    else findSubF text pat fuel (pos + 1)

/-- Python's `text.find(pat, pos)` (None for -1). -/
def findSub (text pat : List Char) (pos : Nat) : Option Nat :=
  findSubF text pat (text.length + 1 - pos) pos

/-- `_skip_close` of `_find_cite_end_in_text`: advance past trailing
spaces/tabs and one closing paren/bracket. -/
def skipClose (text : List Char) (pos : Nat) : Nat :=
  let ws := ((text.drop pos).takeWhile (fun c => c == ' ' || c == '\t')).length
  let p2 := pos + ws
  match text.get? p2 with
  | some c => if c = ')' ∨ c = ']' then p2 + 1 else p2
  | none => p2

/-- `re.match(r"\(?\s*([A-Z][a-z]+)", link.text)`: optional opening
paren, whitespace, then an uppercase letter followed by one or more
lowercase letters (greedy matching agrees with the regex here, since no
later atom can match what an earlier one consumes). -/
def reMatchAuthor (s : List Char) : Option (List Char) :=
  let s1 := match s with
    | '(' :: rest => rest
    | other => other
  let s2 := s1.dropWhile Char.isWhitespace
  match s2 with
  | c :: rest =>
    if c.isUpper then
      let lows := rest.takeWhile Char.isLower
      if lows.isEmpty then none else some (c :: lows)
    else none
  | [] => none

/-- `re.search(r"\d{4}", link.text)`: the first run of four consecutive
digits. -/
def reSearchYear : List Char → Option (List Char)
  | [] => none
  | c :: rest =>
    if c.isDigit ∧ (rest.take 3).length = 3 ∧ (rest.take 3).all Char.isDigit
    then some (c :: rest.take 3)
    else reSearchYear rest

/-- Strategy 1 of `_find_cite_end_in_text` (surname + year), as a
position-by-position scan equivalent to the `text.find(surname, pos)` /
`pos = name_idx + 1` loop: each surname occurrence is word-boundary
checked (a letter right before or right after rejects it); at an
accepted occurrence the year is sought in the following 150-character
window.  Returns the insertion point (if placed) and the
`surname_found` flag. -/
def strat1F (text surname year : List Char) : Nat → Nat → Bool → Option Nat × Bool
  | 0, _, found => (none, found)
  | fuel + 1, pos, found =>
    if surname.isPrefixOf (text.drop pos) then
      if 0 < pos ∧ (text.get? (pos - 1)).any Char.isAlpha then
        strat1F text surname year fuel (pos + 1) found
      else if (text.get? (pos + surname.length)).any Char.isAlpha then
        strat1F text surname year fuel (pos + 1) found
      else
        match findSub ((text.drop pos).take 150) year 0 with
        | some yr => (some (skipClose text (pos + yr + year.length)), true)
        | none => strat1F text surname year fuel (pos + 1) true
    else if text.length ≤ pos then (none, found)
    else strat1F text surname year fuel (pos + 1) found

/-- Strategy 1 run from position 0 with `surname_found = False`. -/
def strat1 (text surname year : List Char) : Option Nat × Bool :=
  strat1F text surname year (text.length + 1) 0 false

/-- Fuel-driven scan for `re.finditer(re.escape(year), text)` start
positions (non-overlapping, left to right). -/
def occPositionsF (text pat : List Char) : Nat → Nat → List Nat
  | 0, _ => []
  | fuel + 1, pos =>
    if pat.isPrefixOf (text.drop pos) then
      pos :: occPositionsF text pat fuel (pos + pat.length)
    else if text.length ≤ pos then []
    else occPositionsF text pat fuel (pos + 1)

/-- All (non-overlapping) occurrence positions of `pat` in `text`. -/
def occPositions (text pat : List Char) : List Nat :=
  occPositionsF text pat (text.length + 1) 0

/-- Embeds `renderer._find_cite_end_in_text` (only `link.text` is read
from the `Link`): strategy 1 surname+year, strategy 2 year-only (only
when the surname was never found at a word boundary and the year occurs
exactly once), strategy 3 literal bracket match for numeric markers. -/
def findCiteEndInText (text linkText : List Char) : Option Nat :=
  let surname? := reMatchAuthor linkText
  let year? := reSearchYear linkText
  let s1 : Option Nat × Bool :=
    match surname?, year? with
    | some s, some y => strat1 text s y
    | _, _ => (none, false)
  match s1.1 with
  | some p => some p
  | none =>
    let r2 : Option Nat :=
      match year? with
      | some y =>
        if s1.2 = false then
          match occPositions text y with
          | [p] => some (skipClose text (p + y.length))
          | _ => none
        else none
      | none => none
    match r2 with
    | some p => some p
    | none =>
      if linkText.head? = some '[' ∧ linkText.getLast? = some ']' then
        match findSub text linkText 0 with
        | some i => some (i + linkText.length)
        | none => none
      else none

/-! ## C8 — `parser._extract_links`.
The PDF geometry is abstracted away: each raw annotation record carries
the data the logic reads from PyMuPDF — its link kind code
(`LINK_GOTO = 1`, `LINK_URI = 2`, `LINK_NAMED = 4`), URI, named
destination, target page, the anchor text/span that `_find_anchor`
resolves from its rectangle, and the rectangle-clipped page text used
for named-destination groups. -/

/-- A raw link annotation as returned by `page.get_links()`, with its
geometry-derived data precomputed. -/
structure RawLink where
  kindCode : Nat
  uri : String := ""
  nameddest : String := ""
  target_page : Int := -1
  anchorText : String := ""
  anchorSpan : Span := ⟨0, 0⟩
  clipText : String := ""
deriving Repr, DecidableEq

/-- The page loop order: every link paired with its 0-indexed page. -/
def flatLinks (pages : List (List RawLink)) : List (Nat × RawLink) :=
  pages.enum.flatMap (fun pr => pr.2.map (fun l => (pr.1, l)))

/-- An external `Link` from a URI annotation. -/
def mkExtLink (pl : Nat × RawLink) : Link :=
  { kind := "external", text := pl.2.anchorText, url := pl.2.uri,
    target_page := -1, page := pl.1, span := pl.2.anchorSpan, dest_name := "" }

/-- An internal `Link` from a page-jump (GOTO) annotation. -/
def mkGotoLink (pl : Nat × RawLink) : Link :=
  { kind := "internal", text := pl.2.anchorText, url := "",
    target_page := pl.2.target_page, page := pl.1, span := pl.2.anchorSpan,
    dest_name := "" }

/-- The first pass of `_extract_links`: URI links deduplicated by URL
(empty URLs skipped), GOTO links appended as-is, named links skipped
here (they are collected into `named_in_order`). -/
def uriGotoLinks : List (Nat × RawLink) → List String → List Link
  | [], _ => []
  | pl :: rest, seen_urls =>
    if pl.2.kindCode = 2 then
      if pl.2.uri = "" ∨ pl.2.uri ∈ seen_urls then uriGotoLinks rest seen_urls
      else mkExtLink pl :: uriGotoLinks rest (pl.2.uri :: seen_urls)
    else if pl.2.kindCode = 1 then
      mkGotoLink pl :: uriGotoLinks rest seen_urls
    else uriGotoLinks rest seen_urls

/-- `named_in_order`: the named-destination fragments (non-empty
`nameddest` only), in document order. -/
structure NamedFrag where
  dest : String
  page : Nat
  target_page : Int
  clipText : String
  anchorSpan : Span
deriving Repr, DecidableEq

/-- Collects `named_in_order` from the page loop. -/
def collectNamed (pages : List (List RawLink)) : List NamedFrag :=
  (flatLinks pages).filterMap (fun pl =>
    if pl.2.kindCode = 4 ∧ pl.2.nameddest ≠ "" then
      some ⟨pl.2.nameddest, pl.1, pl.2.target_page, pl.2.clipText, pl.2.anchorSpan⟩
    else none)

/-- The grouping loop of `_extract_links`: maximal runs of consecutive
fragments sharing destination AND page (the `while j` inner loop);
each group is its leading fragment plus the absorbed run. -/
def groupRuns : List NamedFrag → List (NamedFrag × List NamedFrag)
  | [] => []
  | f :: rest =>
    (f, rest.takeWhile (fun g => g.dest = f.dest ∧ g.page = f.page))
      :: groupRuns (rest.dropWhile (fun g => g.dest = f.dest ∧ g.page = f.page))
termination_by l => l.length
decreasing_by
  simp only [List.length_cons]
  exact Nat.lt_succ_of_le (List.dropWhile_sublist _).length_le

/-- `re.sub(r",\s+", ", ", text)`: each comma followed by whitespace is
normalised to comma-space. -/
def subCommaSpace : List Char → List Char
  | [] => []
  | c :: rest =>
    if c = ',' ∧ (rest.head?.any Char.isWhitespace) then
      ',' :: ' ' :: subCommaSpace (rest.dropWhile Char.isWhitespace)
    else c :: subCommaSpace rest
termination_by l => l.length
decreasing_by
  · simp only [List.length_cons]
    exact Nat.lt_succ_of_le (List.dropWhile_sublist _).length_le
  · simp

/-- `re.sub(r"\s+\)", ")", text)`: whitespace before a closing paren is
removed. -/
def subSpaceClose : List Char → List Char
  | [] => []
  | c :: rest =>
    if c.isWhitespace ∧ ((rest.dropWhile Char.isWhitespace).head? = some ')') then
      ')' :: subSpaceClose (rest.dropWhile Char.isWhitespace).tail
    else c :: subSpaceClose rest
termination_by l => l.length
decreasing_by
  · simp only [List.length_cons]
    have h1 : (rest.dropWhile Char.isWhitespace).length ≤ rest.length :=
      (List.dropWhile_sublist _).length_le
    have h2 : (rest.dropWhile Char.isWhitespace).tail.length
        = (rest.dropWhile Char.isWhitespace).length - 1 :=
      List.length_tail _
    omega
  · simp

/-- The group's anchor text: stripped non-empty clip texts joined with
spaces, then comma/paren spacing normalised. -/
def groupAnchorText (g : NamedFrag × List NamedFrag) : String :=
  let parts := ((g.1 :: g.2).map (fun f => pyStrip f.clipText.data)).filter
    (fun t => ¬ t.isEmpty)
  String.mk (subSpaceClose (subCommaSpace (List.intercalate [' '] parts)))

/-- The group's span: union of the first and last fragments' anchor
spans (covers cross-line citations); a single-fragment group keeps its
own span. -/
def groupSpan (g : NamedFrag × List NamedFrag) : Span :=
  match g.2.getLast? with
  | some lastf =>
    ⟨g.1.anchorSpan.start, max g.1.anchorSpan.stop lastf.anchorSpan.stop⟩
  | none => g.1.anchorSpan

/-- The `Link` built for a named-destination group: kind "citation" for
`cite.*` destinations, "internal" otherwise. -/
def mkNamedLink (g : NamedFrag × List NamedFrag) : Link :=
  { kind := if g.1.dest.startsWith "cite." then "citation" else "internal",
    text := groupAnchorText g, url := "", target_page := g.1.target_page,
    page := g.1.page, span := groupSpan g, dest_name := g.1.dest }

/-- The second pass of `_extract_links`: all citation groups are kept
(one `Link` per group occurrence); non-citation named destinations are
deduplicated to their first group. -/
def emitNamed : List (NamedFrag × List NamedFrag) → List String → List Link
  | [], _ => []
  | g :: t, seen_named =>
    if g.1.dest.startsWith "cite." ∨ g.1.dest ∉ seen_named then
      mkNamedLink g :: emitNamed t (g.1.dest :: seen_named)
    else emitNamed t seen_named

/-- Embeds `parser._extract_links`: URI/GOTO results in page order, then
the grouped named-destination links. -/
def extractLinks (pages : List (List RawLink)) : List Link :=
  uriGotoLinks (flatLinks pages) [] ++ emitNamed (groupRuns (collectNamed pages)) []

/-- Spec-side first-occurrence-per-URL filter over the page loop, used
to state "only the first occurrence of each URL produces a Link". -/
def dedupUriLinks : List (Nat × RawLink) → List String → List (Nat × RawLink)
  | [], _ => []
  | pl :: rest, seen =>
    if pl.2.kindCode = 2 ∧ pl.2.uri ≠ "" ∧ pl.2.uri ∉ seen then
      pl :: dedupUriLinks rest (pl.2.uri :: seen)
    else dedupUriLinks rest seen

/-! ## C2 — `renderer.annotate_text` and the sentence loops of
`renderer.render_section` / `render_full`.
The sets `seen_refs` / `seen_urls` are embedded as lists queried by
membership; `spans.sort()` (a stable sort on `(start, end, ref_id)`
tuples) is embedded as Mathlib's stable `insertionSort` under the same
lexicographic order (extensionally identical to any stable sort). -/

/-- Code-point lexicographic order on strings (Python string `<=`). -/
def charListLe : List Char → List Char → Bool
  | [], _ => true
  | _ :: _, [] => false
  | a :: as, b :: bs =>
    if a < b then true else if b < a then false else charListLe as bs

/-- Python tuple order on `(start, end, ref_id)` citation span triples. -/
def citeSpanLE (a b : Nat × Nat × String) : Bool :=
  if a.1 < b.1 then true
  else if b.1 < a.1 then false
  else if a.2.1 < b.2.1 then true
  else if b.2.1 < a.2.1 then false
  else charListLe a.2.2.data b.2.2.data

/-- The `label_to_ref` dict of `_build_cite_span_index` /
`annotate_text`: successive assignment means the LAST citation entry
with a given label wins. -/
def labelToRef (registry : List RefEntry) (label : String) : Option String :=
  ((registry.filter (fun e => e.kind = "citation" ∧ e.label = label)).getLast?).map
    (fun e => e.ref_id)

/-- Embeds `renderer._build_cite_span_index`: one `(start, end, ref_id)`
triple per citation link whose text is a registry label, sorted. -/
def buildCiteSpanIndex (doc : Document) (registry : List RefEntry) :
    List (Nat × Nat × String) :=
  (doc.links.filterMap (fun l =>
    if l.kind = "citation" then
      (labelToRef registry l.text).map (fun rid => (l.span.start, l.span.stop, rid))
    else none)).insertionSort (fun a b => citeSpanLE a b = true)

/-- The overlap scan of `annotate_text`: walk the sorted span index,
stopping at the first span starting at or past `span_end` (`break`),
keeping spans that overlap `[span_start, span_end)` and whose ref id is
not already in `seen_refs`. -/
def collectOverlapping (spans : List (Nat × Nat × String))
    (span_start span_stop : Nat) (seen : List String) : List (Nat × Nat × String) :=
  match spans with
  | [] => []
  | (cs, ce, rid) :: rest =>
    if span_stop ≤ cs then []
    else if span_start < ce ∧ rid ∉ seen then
      (cs, ce, rid) :: collectOverlapping rest span_start span_stop seen
    else collectOverlapping rest span_start span_stop seen

/-- The `ref_to_link` dict of `annotate_text`: the FIRST citation link
for each ref id. -/
def refToLink (links : List Link) (l2r : String → Option String) :
    List (String × Link) :=
  links.foldl (fun acc link =>
    if link.kind = "citation" then
      match l2r link.text with
      | some rid =>
        if rid ∈ acc.map Prod.fst then acc else acc ++ [(rid, link)]
      | none => acc
    else acc) []

/-- The placement loop of `annotate_text`: for each overlapping
candidate, locate the citation end inside the surface text
(`_find_cite_end_in_text`); a found position is recorded as an
insertion and its ref id marked seen; unfound candidates are skipped
(NOT marked seen) so a later fragment can claim them. -/
def placeLoop (text : String) (r2l : List (String × Link)) :
    List (Nat × Nat × String) → List String → List (Nat × String) × List String
  | [], seen => ([], seen)
  | (_, _, rid) :: rest, seen =>
    match (r2l.lookup rid).bind (fun link => findCiteEndInText text.data link.text.data) with
    | some p =>
      let seen' := if rid ∈ seen then seen else seen ++ [rid]
      let r := placeLoop text r2l rest seen'
      ((p, rid) :: r.1, r.2)
    | none => placeLoop text r2l rest seen

/-- The inline tag `f" [dim]\\[ref={ref_id}][/dim]"`. -/
def tagChars (rid : String) : List Char :=
  (" [dim]\\[ref=" ++ rid ++ "][/dim]").data

/-- `result[:pos] + tag + result[pos:]`. -/
def insertTag (result : List Char) (pos : Nat) (rid : String) : List Char :=
  result.take pos ++ tagChars rid ++ result.drop pos

/-- The candidate placements of one span-branch `annotate_text` call:
the overlap scan followed by the placement loop, returning the
insertion list and the updated `seen_refs`. -/
def annotatePlacements (text : String) (doc : Document)
    (registry : List RefEntry) (span_start span_stop : Nat)
    (seen : List String) : List (Nat × String) × List String :=
  placeLoop text (refToLink doc.links (labelToRef registry))
    (collectOverlapping (buildCiteSpanIndex doc registry) span_start span_stop seen)
    seen

/-- The span branch of `annotate_text`: tags are inserted right-to-left
by offset (stable sort on `-pos`) so earlier offsets stay valid. -/
def annotateSpanBranch (text : String) (doc : Document)
    (registry : List RefEntry) (span_start span_stop : Nat)
    (seen : List String) : String × List String :=
  let res := annotatePlacements text doc registry span_start span_stop seen
  if res.1.isEmpty then (text, res.2)
  else
    let sorted := res.1.insertionSort (fun a b => b.1 ≤ a.1)
    (String.mk (sorted.foldl (fun acc pr => insertTag acc pr.1 pr.2) text.data),
      res.2)

/-- The fallback branch of `annotate_text` (no spans): the unseen
citation labels in registry order. -/
def fallbackPairs (registry : List RefEntry) (seen : List String) :
    List (String × String) :=
  (registry.filter (fun e => e.kind = "citation" ∧ e.ref_id ∉ seen)).map
    (fun e => (e.label, e.ref_id))

/-- The fallback loop: first literal occurrence of each marker gets a
tag right after it. -/
def fallbackLoop : List (String × String) → List Char → List String →
    List Char × List String
  | [], ann, seen => (ann, seen)
  | (marker, rid) :: rest, ann, seen =>
    match findSub ann marker.data 0 with
    | some idx =>
      fallbackLoop rest (insertTag ann (idx + marker.length) rid)
        (if rid ∈ seen then seen else seen ++ [rid])
    | none => fallbackLoop rest ann seen

/-- Embeds `renderer.annotate_text` (string result plus the mutated
`seen_refs`): empty registry returns the text unchanged; non-negative
span bounds select the span branch, otherwise the text-matching
fallback runs. -/
def annotateText (text : String) (doc : Document) (registry : List RefEntry)
    (span_start span_stop : Int) (seen : List String) : String × List String :=
  if registry.isEmpty then (text, seen)
  else if 0 ≤ span_start ∧ 0 ≤ span_stop then
    annotateSpanBranch text doc registry span_start.toNat span_stop.toNat seen
  else
    let r := fallbackLoop (fallbackPairs registry seen) text.data seen
    (String.mk r.1, r.2)

/-- The sentence loop of `render_section`: `annotate_text` on each
sentence in order, threading one shared `seen_refs`; the per-sentence
placement lists are collected for counting. -/
def renderRun (doc : Document) (registry : List RefEntry) :
    List Sentence → List String → List (List (Nat × String)) × List String
  | [], seen => ([], seen)
  | s :: rest, seen =>
    let r := annotatePlacements s.text doc registry s.span.start s.span.stop seen
    let t := renderRun doc registry rest r.2
    (r.1 :: t.1, t.2)

/-- The placements of a full `render_full`: `render_section` is called
per section, and each call creates a FRESH empty `seen_refs`. -/
def renderFullPlacements (doc : Document) : List (List (List (Nat × String))) :=
  doc.sections.map (fun sec =>
    (renderRun doc (buildRefRegistry doc) sec.sentences []).1)

/-- Total number of tags emitted for one ref id by a sentence run. -/
def placedCount (runs : List (List (Nat × String))) (rid : String) : Nat :=
  (runs.map (fun ins => ins.countP (fun pr => pr.2 = rid))).sum

/-- A concrete document whose only citation marker `"(foo)"` has no
surname, no year and no brackets, so no placement strategy applies. -/
def unplaceableDoc : Document :=
  { sections := [
      { heading := "Intro", level := 1, content := "As foo said",
        sentences := [{ text := "As foo said", span := ⟨0, 11⟩, page := 0 }],
        spans := [⟨0, 11⟩] }],
    raw_text := "As foo said",
    links := [
      { kind := "citation", text := "(foo)", url := "",
        target_page := -1, page := 0, span := ⟨0, 11⟩ }] }

/-- A concrete document with one author-year citation in one sentence. -/
def kingmaDoc : Document :=
  { sections := [
      { heading := "Intro", level := 1, content := "x",
        sentences := [
          { text := "Adam ( Kingma & Ba , 2015 ), which maintains estimates.",
            span := ⟨0, 55⟩, page := 0 }],
        spans := [⟨0, 100⟩] }],
    raw_text := "Adam ( Kingma & Ba , 2015 ), which maintains estimates.",
    links := [
      { kind := "citation", text := "(Kingma & Ba, 2015)", url := "",
        target_page := -1, page := 0, span := ⟨0, 50⟩ }] }

end Paper

namespace Paper

/-! ## Theorems -/

/-- C10: `_sanitize_paper_id` either returns a non-empty string with no
path separators that does not start with a dot, or fails; and it fails
exactly when stripping whitespace, replacing separators and dropping
leading dots leaves nothing. -/
theorem sanitize_paper_id_safe (s : String) :
    (sanitizePaperId s = none ↔ sanitizeSteps s.data = []) ∧
    (∀ r : String, sanitizePaperId s = some r →
      r ≠ "" ∧ '/' ∉ r.data ∧ '\\' ∉ r.data ∧ ∀ c ∈ r.data.head?, c ≠ '.') := by
  constructor
  · unfold sanitizePaperId
    by_cases h : (sanitizeSteps s.data).isEmpty
    · simp [h]
      exact List.isEmpty_iff.mp h
    · simp [h]
      intro hc
      simp [hc] at h
  · intro r hr
    unfold sanitizePaperId at hr
    by_cases h : (sanitizeSteps s.data).isEmpty
    · simp [h] at hr
    · simp [h] at hr
      have hdata : r.data = sanitizeSteps s.data := by
        rw [← hr]
      refine ⟨?_, ?_, ?_, ?_⟩
      · intro hemp
        rw [hemp] at hdata
        simp [List.isEmpty_iff] at h
        exact h hdata.symm
      · rw [hdata]
        unfold sanitizeSteps
        intro hmem
        have hmem' := (List.dropWhile_sublist (· = '.')).mem hmem
        simp only [List.mem_map] at hmem'
        obtain ⟨c, _, hc⟩ := hmem'
        by_cases hcc : c = '/' ∨ c = '\\'
        · simp [hcc] at hc
        · simp [hcc] at hc
          exact hcc (Or.inl hc)
      · rw [hdata]
        unfold sanitizeSteps
        intro hmem
        have hmem' := (List.dropWhile_sublist (· = '.')).mem hmem
        simp only [List.mem_map] at hmem'
        obtain ⟨c, _, hc⟩ := hmem'
        by_cases hcc : c = '/' ∨ c = '\\'
        · simp [hcc] at hc
        · simp [hcc] at hc
          exact hcc (Or.inr hc)
      · intro c hc
        rw [hdata] at hc
        unfold sanitizeSteps at hc
        intro hdot
        subst hdot
        have := List.head?_dropWhile_not (· = '.')
          ((((s.data.dropWhile Char.isWhitespace).reverse.dropWhile
            Char.isWhitespace).reverse).map (fun c => if c = '/' ∨ c = '\\' then '_' else c))
        rw [hc] at this
        simp at this

/-- C10 witness: on the input `" a/b "`, sanitisation succeeds (the steps
leave `"a_b"`), and on `"..."` the steps leave nothing. -/
theorem sanitize_paper_id_safe_witness :
    (sanitizePaperId " a/b " = none ↔ sanitizeSteps " a/b ".data = []) ∧
    (∀ r : String, sanitizePaperId " a/b " = some r →
      r ≠ "" ∧ '/' ∉ r.data ∧ '\\' ∉ r.data ∧ ∀ c ∈ r.data.head?, c ≠ '.') :=
  sanitize_paper_id_safe " a/b "

/-- C5: from an empty store, `add_highlight` stores exactly one entry with
id 1; removing it empties the store again; removing an id that is not
present returns `False` and leaves the store unchanged; and in general a
freshly added highlight gets `id = max(existing ids) + 1`. -/
theorem highlight_round_trip :
    (∀ t p c n ca, (addHighlight [] t p c n ca).2.id = 1 ∧
      (addHighlight [] t p c n ca).1 = [(addHighlight [] t p c n ca).2]) ∧
    (∀ t p c n ca, removeHighlight (addHighlight [] t p c n ca).1 1 = ([], true)) ∧
    (∀ (store : List Highlight) (hid : Nat), (∀ h ∈ store, h.id ≠ hid) →
      removeHighlight store hid = (store, false)) ∧
    (∀ store t p c n ca,
      (addHighlight store t p c n ca).2.id = maxHighlightId store + 1) := by
  refine ⟨?_, ?_, ?_, ?_⟩
  · intro t p c n ca
    simp [addHighlight, maxHighlightId]
  · intro t p c n ca
    simp [addHighlight, removeHighlight, maxHighlightId]
  · intro store hid hnone
    unfold removeHighlight
    have hfil : store.filter (fun h => h.id ≠ hid) = store :=
      List.filter_eq_self.mpr (fun h hm => by simpa using hnone h hm)
    simp [hfil]
    exact fun x hx => hnone x hx
  · intro store t p c n ca
    simp [addHighlight]

/-- C5 witness: a concrete run with one stored highlight of id 1: removing
id 2 is a no-op returning `False`. -/
theorem highlight_round_trip_witness :
    removeHighlight [⟨1, "txt", 0, "yellow", "", ""⟩] 2 =
      ([⟨1, "txt", 0, "yellow", "", ""⟩], false) :=
  highlight_round_trip.2.2.1 [⟨1, "txt", 0, "yellow", "", ""⟩] 2 (by decide)

/-- The section pass assigns the ids `s(i), s(i+1), ...`. -/
theorem sectionEntries_map_ref_id (ss : List Sect) (i : Nat) :
    (sectionEntries ss i).map RefEntry.ref_id
      = (List.range ss.length).map (fun j => "s" ++ toString (i + j)) := by
  induction ss generalizing i with
  | nil => simp [sectionEntries]
  | cons s rest ih =>
    simp only [sectionEntries, List.map_cons, List.length_cons,
      List.range_succ_eq_map, ih]
    refine congrArg₂ _ (by simp) ?_
    rw [List.map_map]
    refine List.map_congr_left (fun j _ => ?_)
    simp only [Function.comp]
    refine congrArg _ (congrArg _ ?_)
    omega

/-- The layout pass's per-kind counters agree with "number of same-kind
elements already processed", for the three valid kinds. -/
theorem layoutEntries_map_ref_id (rest processed : List LayoutElement)
    (hvalid : ∀ e ∈ rest,
      e.kind = "figure" ∨ e.kind = "table" ∨ e.kind = "equation") :
    (layoutEntries rest
        (processed.countP (fun x => x.kind = "figure"))
        (processed.countP (fun x => x.kind = "table"))
        (processed.countP (fun x => x.kind = "equation"))).map RefEntry.ref_id
      = specLayoutIds processed rest := by
  induction rest generalizing processed with
  | nil => simp [layoutEntries, specLayoutIds]
  | cons e rest ih =>
    have hv := hvalid e (List.mem_cons_self e rest)
    have hrest : ∀ x ∈ rest,
        x.kind = "figure" ∨ x.kind = "table" ∨ x.kind = "equation" :=
      fun x hx => hvalid x (List.mem_cons_of_mem e hx)
    rcases hv with hk | hk | hk
    · rw [layoutEntries, if_pos hk, specLayoutIds, List.map_cons]
      refine congrArg₂ List.cons ?_ ?_
      · simp only [hk]
      · have h := ih (processed ++ [e]) hrest
        simp only [List.countP_append, List.countP_cons, List.countP_nil, hk] at h
        simpa using h
    · have hnf : e.kind ≠ "figure" := by rw [hk]; decide
      rw [layoutEntries, if_neg hnf, if_pos hk, specLayoutIds, List.map_cons]
      refine congrArg₂ List.cons ?_ ?_
      · simp only [hk]
      · have h := ih (processed ++ [e]) hrest
        simp only [List.countP_append, List.countP_cons, List.countP_nil, hk] at h
        simpa using h
    · have hnf : e.kind ≠ "figure" := by rw [hk]; decide
      have hnt : e.kind ≠ "table" := by rw [hk]; decide
      rw [layoutEntries, if_neg hnf, if_neg hnt, specLayoutIds, List.map_cons]
      refine congrArg₂ List.cons ?_ ?_
      · simp only [hk]
      · have h := ih (processed ++ [e]) hrest
        simp only [List.countP_append, List.countP_cons, List.countP_nil, hk] at h
        simpa using h

/-- `countNewKeys` only looks at membership in the seen set. -/
theorem countNewKeys_congr (l : List String) :
    ∀ s1 s2, (∀ x, x ∈ s1 ↔ x ∈ s2) → countNewKeys l s1 = countNewKeys l s2 := by
  induction l with
  | nil => intro s1 s2 _; rfl
  | cons u rest ih =>
    intro s1 s2 hs
    by_cases hu : u ∈ s1
    · rw [countNewKeys, countNewKeys, if_pos hu, if_pos ((hs u).mp hu)]
      exact ih s1 s2 hs
    · rw [countNewKeys, countNewKeys, if_neg hu, if_neg (fun h => hu ((hs u).mpr h))]
      refine congrArg (· + 1) (ih _ _ ?_)
      intro x
      simp only [List.mem_cons]
      exact or_congr Iff.rfl (hs x)

/-- Length of the first-seen fold = number of fresh keys. -/
theorem firstSeen_fold_length (l : List String) :
    ∀ acc : List String,
      (l.foldl (fun acc u => if u ∈ acc then acc else acc ++ [u]) acc).length
        = acc.length + countNewKeys l acc := by
  induction l with
  | nil => intro acc; simp [countNewKeys]
  | cons u rest ih =>
    intro acc
    by_cases hu : u ∈ acc
    · simp only [List.foldl_cons, if_pos hu, countNewKeys]
      rw [ih acc]
    · simp only [List.foldl_cons, if_neg hu, countNewKeys, if_neg hu]
      rw [ih (acc ++ [u])]
      have : countNewKeys rest (acc ++ [u]) = countNewKeys rest (u :: acc) := by
        refine countNewKeys_congr rest _ _ (fun x => ?_)
        simp only [List.mem_append, List.mem_cons, List.mem_singleton]
        tauto
      rw [this]
      simp
      omega

/-- `firstSeen` has as many elements as there are fresh keys. -/
theorem firstSeen_length (l : List String) :
    (firstSeen l).length = countNewKeys l [] := by
  unfold firstSeen
  simpa using firstSeen_fold_length l []

/-- The external pass assigns `e(idx+1), e(idx+2), ...` to the first-seen
distinct URLs of the external links. -/
theorem externalEntries_map_ref_id (links : List Link) :
    ∀ (seen : List String) (idx : Nat),
      (externalEntries links seen idx).map RefEntry.ref_id
        = (List.range (countNewKeys
            ((links.filter (fun l => l.kind = "external")).map (fun l => l.url))
            seen)).map (fun i => "e" ++ toString (idx + i + 1)) := by
  induction links with
  | nil => intro seen idx; simp [externalEntries, countNewKeys]
  | cons l rest ih =>
    intro seen idx
    by_cases hk : l.kind = "external"
    · by_cases hu : l.url ∈ seen
      · rw [externalEntries, if_neg (by simp [hu])]
        rw [List.filter_cons_of_pos (by simp [hk]), List.map_cons]
        simp only [countNewKeys, if_pos hu]
        exact ih seen idx
      · rw [externalEntries, if_pos ⟨hk, hu⟩]
        rw [List.filter_cons_of_pos (by simp [hk]), List.map_cons]
        simp only [countNewKeys, if_neg hu]
        rw [List.range_succ_eq_map, List.map_cons, List.map_map]
        refine congrArg₂ List.cons (by simp) ?_
        rw [ih (l.url :: seen) (idx + 1)]
        refine List.map_congr_left (fun j _ => ?_)
        simp only [Function.comp]
        refine congrArg _ (congrArg _ ?_)
        omega
    · rw [externalEntries, if_neg (by simp [hk])]
      rw [List.filter_cons_of_neg (by simp [hk])]
      exact ih seen idx

/-- The citation pass assigns `c(idx+1), c(idx+2), ...` to the first-seen
distinct marker texts of the citation links. -/
theorem citationEntries_map_ref_id (links : List Link) :
    ∀ (seen : List String) (idx : Nat),
      (citationEntries links seen idx).map RefEntry.ref_id
        = (List.range (countNewKeys
            ((links.filter (fun l => l.kind = "citation")).map (fun l => l.text))
            seen)).map (fun i => "c" ++ toString (idx + i + 1)) := by
  induction links with
  | nil => intro seen idx; simp [citationEntries, countNewKeys]
  | cons l rest ih =>
    intro seen idx
    by_cases hk : l.kind = "citation"
    · by_cases hu : l.text ∈ seen
      · rw [citationEntries, if_neg (by simp [hu])]
        rw [List.filter_cons_of_pos (by simp [hk]), List.map_cons]
        simp only [countNewKeys, if_pos hu]
        exact ih seen idx
      · rw [citationEntries, if_pos ⟨hk, hu⟩]
        rw [List.filter_cons_of_pos (by simp [hk]), List.map_cons]
        simp only [countNewKeys, if_neg hu]
        rw [List.range_succ_eq_map, List.map_cons, List.map_map]
        refine congrArg₂ List.cons (by simp) ?_
        rw [ih (l.text :: seen) (idx + 1)]
        refine List.map_congr_left (fun j _ => ?_)
        simp only [Function.comp]
        refine congrArg _ (congrArg _ ?_)
        omega
    · rw [citationEntries, if_neg (by simp [hk])]
      rw [List.filter_cons_of_neg (by simp [hk])]
      exact ih seen idx

/-- C3: `build_ref_registry` is deterministic — two calls on the same
unmodified `Document` return identical, identically-ordered lists (the
embedding of the Python function is a pure function, first conjunct), and
the assigned ref IDs are exactly the pure function of the `Document`'s
contents described by the spec (`refIdsSpec`, second conjunct). -/
theorem build_ref_registry_deterministic (doc : Document)
    (hkinds : ∀ e ∈ doc.layout_elements,
      e.kind = "figure" ∨ e.kind = "table" ∨ e.kind = "equation") :
    buildRefRegistry doc = buildRefRegistry doc ∧
    (buildRefRegistry doc).map RefEntry.ref_id = refIdsSpec doc := by
  refine ⟨rfl, ?_⟩
  unfold buildRefRegistry refIdsSpec
  simp only [List.map_append]
  have h1 : (sectionEntries doc.sections 1).map RefEntry.ref_id
      = (List.range doc.sections.length).map (fun i => "s" ++ toString (i + 1)) := by
    rw [sectionEntries_map_ref_id]
    exact List.map_congr_left (fun j _ => by rw [Nat.add_comm])
  have h2 : (layoutEntries doc.layout_elements 0 0 0).map RefEntry.ref_id
      = specLayoutIds [] doc.layout_elements := by
    have := layoutEntries_map_ref_id doc.layout_elements [] hkinds
    simpa using this
  have h3 : (externalEntries doc.links [] 0).map RefEntry.ref_id
      = (List.range (firstSeen ((doc.links.filter
          (fun l => l.kind = "external")).map (fun l => l.url))).length).map
            (fun i => "e" ++ toString (i + 1)) := by
    rw [externalEntries_map_ref_id, firstSeen_length]
    exact List.map_congr_left (fun j _ => by rw [Nat.zero_add])
  have h4 : (citationEntries doc.links [] 0).map RefEntry.ref_id
      = (List.range (firstSeen ((doc.links.filter
          (fun l => l.kind = "citation")).map (fun l => l.text))).length).map
            (fun i => "c" ++ toString (i + 1)) := by
    rw [citationEntries_map_ref_id, firstSeen_length]
    exact List.map_congr_left (fun j _ => by rw [Nat.zero_add])
  rw [h1, h2, h3, h4]

/-- C3 witness: the determinism theorem applied to a concrete document
with one figure, one external link and one citation. -/
theorem build_ref_registry_deterministic_witness :
    (buildRefRegistry
        { sections := [{ heading := "Intro", level := 1, content := "x" }],
          links := [
            { kind := "external", text := "ex", url := "https://e.com",
              target_page := -1, page := 0, span := ⟨0, 2⟩ },
            { kind := "citation", text := "[1]", url := "",
              target_page := -1, page := 0, span := ⟨3, 6⟩ }],
          layout_elements := [{ kind := "figure", label := "Figure 1" }] }
      = buildRefRegistry
        { sections := [{ heading := "Intro", level := 1, content := "x" }],
          links := [
            { kind := "external", text := "ex", url := "https://e.com",
              target_page := -1, page := 0, span := ⟨0, 2⟩ },
            { kind := "citation", text := "[1]", url := "",
              target_page := -1, page := 0, span := ⟨3, 6⟩ }],
          layout_elements := [{ kind := "figure", label := "Figure 1" }] }) ∧
    (buildRefRegistry
        { sections := [{ heading := "Intro", level := 1, content := "x" }],
          links := [
            { kind := "external", text := "ex", url := "https://e.com",
              target_page := -1, page := 0, span := ⟨0, 2⟩ },
            { kind := "citation", text := "[1]", url := "",
              target_page := -1, page := 0, span := ⟨3, 6⟩ }],
          layout_elements := [{ kind := "figure", label := "Figure 1" }] }).map
        RefEntry.ref_id
      = refIdsSpec
        { sections := [{ heading := "Intro", level := 1, content := "x" }],
          links := [
            { kind := "external", text := "ex", url := "https://e.com",
              target_page := -1, page := 0, span := ⟨0, 2⟩ },
            { kind := "citation", text := "[1]", url := "",
              target_page := -1, page := 0, span := ⟨3, 6⟩ }],
          layout_elements := [{ kind := "figure", label := "Figure 1" }] } :=
  build_ref_registry_deterministic _ (by decide)

/-- The section pass emits only kind "section". -/
theorem sectionEntries_map_kind (ss : List Sect) (i : Nat) :
    (sectionEntries ss i).map RefEntry.kind = List.replicate ss.length "section" := by
  induction ss generalizing i with
  | nil => simp [sectionEntries]
  | cons s rest ih => simp [sectionEntries, List.replicate_succ, ih]

/-- The layout pass emits each element's own kind, in order. -/
theorem layoutEntries_map_kind (elems : List LayoutElement) :
    ∀ nf nt ne, (layoutEntries elems nf nt ne).map RefEntry.kind
      = elems.map LayoutElement.kind := by
  induction elems with
  | nil => simp [layoutEntries]
  | cons e rest ih =>
    intro nf nt ne
    by_cases h1 : e.kind = "figure"
    · rw [layoutEntries, if_pos h1]
      simp [ih]
    · by_cases h2 : e.kind = "table"
      · rw [layoutEntries, if_neg h1, if_pos h2]
        simp [ih]
      · rw [layoutEntries, if_neg h1, if_neg h2]
        simp [ih]

/-- The external pass emits only kind "external", one entry per fresh URL. -/
theorem externalEntries_map_kind (links : List Link) :
    ∀ seen idx, (externalEntries links seen idx).map RefEntry.kind
      = List.replicate (countNewKeys
          ((links.filter (fun l => l.kind = "external")).map (fun l => l.url)) seen)
          "external" := by
  induction links with
  | nil => intro seen idx; simp [externalEntries, countNewKeys]
  | cons l rest ih =>
    intro seen idx
    by_cases hk : l.kind = "external"
    · by_cases hu : l.url ∈ seen
      · rw [externalEntries, if_neg (by simp [hu]),
          List.filter_cons_of_pos (by simp [hk]), List.map_cons]
        simp only [countNewKeys, if_pos hu]
        exact ih seen idx
      · rw [externalEntries, if_pos ⟨hk, hu⟩,
          List.filter_cons_of_pos (by simp [hk]), List.map_cons]
        simp only [countNewKeys, if_neg hu, List.map_cons, List.replicate_succ]
        rw [ih (l.url :: seen) (idx + 1)]
    · rw [externalEntries, if_neg (by simp [hk]),
        List.filter_cons_of_neg (by simp [hk])]
      exact ih seen idx

/-- The citation pass emits only kind "citation", one entry per fresh
marker text. -/
theorem citationEntries_map_kind (links : List Link) :
    ∀ seen idx, (citationEntries links seen idx).map RefEntry.kind
      = List.replicate (countNewKeys
          ((links.filter (fun l => l.kind = "citation")).map (fun l => l.text)) seen)
          "citation" := by
  induction links with
  | nil => intro seen idx; simp [citationEntries, countNewKeys]
  | cons l rest ih =>
    intro seen idx
    by_cases hk : l.kind = "citation"
    · by_cases hu : l.text ∈ seen
      · rw [citationEntries, if_neg (by simp [hu]),
          List.filter_cons_of_pos (by simp [hk]), List.map_cons]
        simp only [countNewKeys, if_pos hu]
        exact ih seen idx
      · rw [citationEntries, if_pos ⟨hk, hu⟩,
          List.filter_cons_of_pos (by simp [hk]), List.map_cons]
        simp only [countNewKeys, if_neg hu, List.map_cons, List.replicate_succ]
        rw [ih (l.text :: seen) (idx + 1)]
    · rw [citationEntries, if_neg (by simp [hk]),
        List.filter_cons_of_neg (by simp [hk])]
      exact ih seen idx

/-- C4: the registry is emitted in the fixed order sections → layout
elements → external links → citations (first conjunct, any document); and
for a document with exactly 2 sections, 2 distinct external URLs, 2
distinct citation markers and no layout elements, the kinds are
`[section, section, external, external, citation, citation]` with ids
`s1, s2, e1, e2, c1, c2` (second conjunct). -/
theorem registry_fixed_order (doc : Document) :
    ((buildRefRegistry doc).map RefEntry.kind
      = List.replicate doc.sections.length "section"
        ++ doc.layout_elements.map LayoutElement.kind
        ++ List.replicate (firstSeen ((doc.links.filter
            (fun l => l.kind = "external")).map (fun l => l.url))).length "external"
        ++ List.replicate (firstSeen ((doc.links.filter
            (fun l => l.kind = "citation")).map (fun l => l.text))).length "citation") ∧
    (∀ sA sB lE1 lE2 lC1 lC2,
      doc.sections = [sA, sB] →
      doc.layout_elements = [] →
      doc.links = [lE1, lE2, lC1, lC2] →
      lE1.kind = "external" → lE2.kind = "external" →
      lC1.kind = "citation" → lC2.kind = "citation" →
      lE1.url ≠ lE2.url → lC1.text ≠ lC2.text →
      (buildRefRegistry doc).map RefEntry.kind
          = ["section", "section", "external", "external", "citation", "citation"] ∧
      (buildRefRegistry doc).map RefEntry.ref_id
          = ["s1", "s2", "e1", "e2", "c1", "c2"]) := by
  constructor
  · unfold buildRefRegistry
    simp only [List.map_append]
    rw [sectionEntries_map_kind, layoutEntries_map_kind,
      externalEntries_map_kind, citationEntries_map_kind,
      firstSeen_length, firstSeen_length]
  · intro sA sB lE1 lE2 lC1 lC2 hs hl hlinks hk1 hk2 hk3 hk4 hurl htext
    have hurl' : lE2.url ≠ lE1.url := fun h => hurl h.symm
    have htext' : lC2.text ≠ lC1.text := fun h => htext h.symm
    unfold buildRefRegistry
    rw [hs, hl, hlinks]
    constructor <;>
      simp [sectionEntries, layoutEntries, externalEntries, citationEntries,
        hk1, hk2, hk3, hk4, hurl', htext'] <;>
      decide

/-- C4 witness: the fixed-order theorem instantiated at a concrete
document with 2 sections, 2 external links and 2 citations. -/
theorem registry_fixed_order_witness :
    (buildRefRegistry
        { sections := [{ heading := "A", level := 1, content := "" },
                       { heading := "B", level := 1, content := "" }],
          links := [
            { kind := "external", text := "x", url := "https://a.com",
              target_page := -1, page := 0, span := ⟨0, 1⟩ },
            { kind := "external", text := "y", url := "https://b.com",
              target_page := -1, page := 0, span := ⟨1, 2⟩ },
            { kind := "citation", text := "[1]", url := "",
              target_page := -1, page := 0, span := ⟨2, 5⟩ },
            { kind := "citation", text := "[2]", url := "",
              target_page := -1, page := 0, span := ⟨5, 8⟩ }] }).map RefEntry.ref_id
      = ["s1", "s2", "e1", "e2", "c1", "c2"] :=
  ((registry_fixed_order _).2 _ _ _ _ _ _ rfl rfl rfl rfl rfl rfl rfl
    (by decide) (by decide)).2

/-- `takeWhile (· ≠ '/')` over `l ++ '/' :: r` stops exactly at the
separator when `l` is separator-free. -/
theorem takeWhile_ne_sep (l r : List Char) (h : '/' ∉ l) :
    (l ++ '/' :: r).takeWhile (· ≠ '/') = l := by
  induction l with
  | nil => simp [List.takeWhile_cons]
  | cons c rest ih =>
    have hc : c ≠ '/' := fun hcc => h (hcc ▸ List.mem_cons_self c rest)
    have hr : '/' ∉ rest := fun hm => h (List.mem_cons_of_mem c hm)
    simp only [List.cons_append, List.takeWhile_cons, hc, decide_True,
      if_true, ih hr]
    simp [hc]

/-- `pyWithSuffixTmp` on a path `dir ++ "/" ++ name` rewrites only the
final component (`stem` is the name's extension-stripped stem). -/
theorem pyWithSuffixTmp_concat (dir : String) (name stem : List Char)
    (hsep : '/' ∉ name)
    (hstem : (if (name.reverse.takeWhile (· ≠ '.')).length + 1 < name.reverse.reverse.length ∧
        (name.reverse.takeWhile (· ≠ '.')).length < name.reverse.reverse.length
      then name.reverse.reverse.take
        (name.reverse.reverse.length - (name.reverse.takeWhile (· ≠ '.')).length - 1)
      else name.reverse.reverse) = stem) :
    pyWithSuffixTmp (dir ++ String.mk ('/' :: name))
      = String.mk (dir.data ++ '/' :: (stem ++ ".tmp".data)) := by
  have hrevname : '/' ∉ name.reverse := by simpa using hsep
  have hd : (dir ++ String.mk ('/' :: name)).data = dir.data ++ '/' :: name := rfl
  have hrev : (dir.data ++ '/' :: name).reverse
      = name.reverse ++ '/' :: dir.data.reverse := by
    rw [List.reverse_append, List.reverse_cons, List.append_assoc]
    simp
  simp only [pyWithSuffixTmp, hd, hrev,
    takeWhile_ne_sep name.reverse dir.data.reverse hrevname,
    List.drop_left, hstem]
  simp [List.append_assoc]

/-- Distinct literal tails keep appended strings distinct. -/
theorem append_tail_ne (dir : String) (a b : String) (h : a.data ≠ b.data) :
    dir ++ a ≠ dir ++ b := by
  intro hd
  exact h (List.append_cancel_left (congrArg String.data hd))

/-- C9 counterexample: `storage.save_metadata` mutates `metadata.json`
with a single direct `write_text` — its operation trace is not of the
write-to-temp-then-rename form, refuting "every mutation of an on-disk
cache file is performed by writing a temporary file and renaming it". -/
theorem metadata_write_not_atomic :
    ¬ atomicReplace (saveMetadataOps "/root/.papers/2302.13971" "{}")
      ("/root/.papers/2302.13971/metadata.json") := by
  rintro ⟨tmp, c, _, heq⟩
  simp [saveMetadataOps] at heq

/-- C9 (amended): the highlights store, the index file, the layout cache
and the header marker are mutated with write-to-temp-then-rename; the
parsed-document cache (`Document.save`) and `metadata.json`
(`save_metadata`) are instead written directly to the target path. -/
theorem cache_mutation_ops (dir pdir c : String) :
    atomicReplace (saveHighlightsOps dir c) (dir ++ "/highlights.json") ∧
    atomicReplace (updateIndexOps pdir c) (pdir ++ "/index.json") ∧
    atomicReplace (saveLayoutOps dir c) (dir ++ "/layout.json") ∧
    atomicReplace (markHeaderShownOps pdir c) (pdir ++ "/.last_header") ∧
    saveMetadataOps dir c = [FsOp.write (dir ++ "/metadata.json") c] ∧
    (∀ p, documentSaveOps p c = [FsOp.write p c]) := by
  have hhl : pyWithSuffixTmp (dir ++ "/highlights.json") = dir ++ "/highlights.tmp" := by
    have h := pyWithSuffixTmp_concat dir "highlights.json".data "highlights".data
      (by decide) (by decide)
    exact h.trans rfl
  have hix : pyWithSuffixTmp (pdir ++ "/index.json") = pdir ++ "/index.tmp" := by
    have h := pyWithSuffixTmp_concat pdir "index.json".data "index".data
      (by decide) (by decide)
    exact h.trans rfl
  have hly : pyWithSuffixTmp (dir ++ "/layout.json") = dir ++ "/layout.tmp" := by
    have h := pyWithSuffixTmp_concat dir "layout.json".data "layout".data
      (by decide) (by decide)
    exact h.trans rfl
  have hlh : pyWithSuffixTmp (pdir ++ "/.last_header") = pdir ++ "/.last_header.tmp" := by
    have h := pyWithSuffixTmp_concat pdir ".last_header".data ".last_header".data
      (by decide) (by decide)
    exact h.trans rfl
  refine ⟨?_, ?_, ?_, ?_, rfl, fun p => rfl⟩
  · exact ⟨dir ++ "/highlights.tmp", c,
      append_tail_ne dir _ _ (by decide),
      by simp [saveHighlightsOps, hhl]⟩
  · exact ⟨pdir ++ "/index.tmp", c,
      append_tail_ne pdir _ _ (by decide),
      by simp [updateIndexOps, hix]⟩
  · exact ⟨dir ++ "/layout.tmp", c,
      append_tail_ne dir _ _ (by decide),
      by simp [saveLayoutOps, hly]⟩
  · exact ⟨pdir ++ "/.last_header.tmp", c,
      append_tail_ne pdir _ _ (by decide),
      by simp [markHeaderShownOps, hlh]⟩

/-- The `_segment_sections` loop yields one section per heading. -/
theorem segmentLoop_length (raw : String) (lines : List LineRec) :
    ∀ hs : List HeadingRec, (segmentLoop raw lines hs).length = hs.length := by
  intro hs
  induction hs with
  | nil => rfl
  | cons h tl ih => simp [segmentLoop, ih]

/-- Structure of the spans produced by the `_segment_sections` loop when
every heading carries a `char_start`: one single-span section per
heading, consecutive spans chained stop-to-start, the first span starting
at the first heading's `char_start` and the last ending at
`len(raw_text)`. -/
theorem segmentLoop_spans (raw : String) (lines : List LineRec) :
    ∀ headings : List HeadingRec, (∀ hh ∈ headings, hh.char_start.isSome) →
      (segmentLoop raw lines headings).length = headings.length ∧
      (∀ s ∈ segmentLoop raw lines headings, s.spans.length = 1) ∧
      List.Chain' (fun a b => a.stop = b.start)
        (primarySpans (segmentLoop raw lines headings)) ∧
      (primarySpans (segmentLoop raw lines headings)).head?.map Span.start
        = headings.head?.map (fun hh => hh.char_start.getD 0) ∧
      (headings ≠ [] →
        (primarySpans (segmentLoop raw lines headings)).getLast?.map Span.stop
          = some raw.length) := by
  intro headings
  induction headings with
  | nil =>
    intro _
    exact ⟨rfl, by simp [segmentLoop], by simp [segmentLoop, primarySpans],
      by simp [segmentLoop, primarySpans], fun hne => absurd rfl hne⟩
  | cons h tl ih =>
    intro hsome
    have hsome_tl : ∀ hh ∈ tl, hh.char_start.isSome :=
      fun hh hm => hsome hh (List.mem_cons_of_mem _ hm)
    obtain ⟨ihlen, ihone, ihchain, ihhead, ihlast⟩ := ih hsome_tl
    cases tl with
    | nil =>
      refine ⟨by simp [segmentLoop], ?_, ?_, ?_, fun _ => ?_⟩
      · intro s hs
        simp [segmentLoop] at hs
        simp [hs]
      · simp [segmentLoop, primarySpans]
      · simp [segmentLoop, primarySpans]
      · simp [segmentLoop, primarySpans]
    | cons h2 tl2 =>
      have hs2 : h2.char_start.isSome := hsome h2 (by simp)
      obtain ⟨c2, hc2⟩ := Option.isSome_iff_exists.mp hs2
      have hcons : primarySpans (segmentLoop raw lines (h :: h2 :: tl2))
          = ⟨h.char_start.getD 0, c2⟩
            :: primarySpans (segmentLoop raw lines (h2 :: tl2)) := by
        simp [segmentLoop, primarySpans, hc2]
      have hheadtl : (primarySpans (segmentLoop raw lines (h2 :: tl2))).head?.map
          Span.start = some c2 := by
        rw [ihhead]
        simp [hc2]
      obtain ⟨x, rest', hx⟩ :
          ∃ x rest', primarySpans (segmentLoop raw lines (h2 :: tl2)) = x :: rest' := by
        cases hpt : primarySpans (segmentLoop raw lines (h2 :: tl2)) with
        | nil => rw [hpt] at hheadtl; simp at hheadtl
        | cons x rest' => exact ⟨x, rest', rfl⟩
      have hxstart : x.start = c2 := by
        rw [hx] at hheadtl
        simpa using hheadtl
      refine ⟨?_, ?_, ?_, ?_, fun _ => ?_⟩
      · simp [segmentLoop_length]
      · intro s hs
        rw [show segmentLoop raw lines (h :: h2 :: tl2)
            = (segmentLoop raw lines (h :: h2 :: tl2)).head?.toList
              ++ segmentLoop raw lines (h2 :: tl2) from by simp [segmentLoop]] at hs
        rcases List.mem_append.mp hs with hs1 | hs2'
        · simp [segmentLoop] at hs1
          simp [hs1]
        · exact ihone s hs2'
      · rw [hcons, hx]
        rw [hx] at ihchain
        exact List.Chain'.cons (by simp [hxstart]) ihchain
      · rw [hcons]
        simp
      · rw [hcons, hx]
        rw [List.getLast?_cons_cons]
        rw [← hx]
        exact ihlast (by simp)

/-- C1 (amended): for every non-empty heading list in which each heading
carries a `char_start`, `_segment_sections` produces one single-span
section per heading whose primary spans are contiguous (each span ends
exactly where the next begins) and end at `len(raw_text)`; the first
span starts at the FIRST HEADING's `char_start`, which need not be 0. -/
theorem section_spans_contiguous (raw : String) (lines : List LineRec)
    (headings : List HeadingRec) (hne : headings ≠ [])
    (hsome : ∀ hh ∈ headings, hh.char_start.isSome) :
    (segmentSections raw lines headings).length = headings.length ∧
    (∀ s ∈ segmentSections raw lines headings, s.spans.length = 1) ∧
    List.Chain' (fun a b => a.stop = b.start)
      (primarySpans (segmentSections raw lines headings)) ∧
    (primarySpans (segmentSections raw lines headings)).head?.map Span.start
      = headings.head?.map (fun hh => hh.char_start.getD 0) ∧
    (primarySpans (segmentSections raw lines headings)).getLast?.map Span.stop
      = some raw.length := by
  have hno : headings.isEmpty = false := by
    cases headings with
    | nil => exact absurd rfl hne
    | cons a l => rfl
  unfold segmentSections
  rw [hno]
  simp only [Bool.false_eq_true, if_false]
  obtain ⟨p1, p2, p3, p4, p5⟩ := segmentLoop_spans raw lines headings hsome
  exact ⟨p1, p2, p3, p4, p5 hne⟩

/-- C1 counterexample: a single detected heading whose `char_start` is 5
(as happens whenever text precedes the first heading) yields a first
section whose primary span starts at 5, not 0 — the spans do not cover
the document from position 0. -/
theorem section_spans_counterexample :
    primarySpans (segmentSections "xxxxxxxxxx" []
        [{ heading := "A", level := 1, page := 0, char_start := some 5,
           char_end := some 6 }])
      = [⟨5, 10⟩] ∧ (5 : Nat) ≠ 0 := by
  constructor
  · rfl
  · decide

/-- C1 witness: the contiguity theorem evaluated on two concrete
headings with `char_start` 0 and 4 over a 10-character document. -/
theorem section_spans_contiguous_witness :
    (segmentSections "xxxxxxxxxx" []
        [{ heading := "1", level := 1, page := 0, char_start := some 0,
           char_end := some 1 },
         { heading := "2", level := 1, page := 0, char_start := some 4,
           char_end := some 5 }]).length = 2 ∧
    (∀ s ∈ segmentSections "xxxxxxxxxx" []
        [{ heading := "1", level := 1, page := 0, char_start := some 0,
           char_end := some 1 },
         { heading := "2", level := 1, page := 0, char_start := some 4,
           char_end := some 5 }], s.spans.length = 1) ∧
    List.Chain' (fun a b => a.stop = b.start)
      (primarySpans (segmentSections "xxxxxxxxxx" []
        [{ heading := "1", level := 1, page := 0, char_start := some 0,
           char_end := some 1 },
         { heading := "2", level := 1, page := 0, char_start := some 4,
           char_end := some 5 }])) ∧
    (primarySpans (segmentSections "xxxxxxxxxx" []
        [{ heading := "1", level := 1, page := 0, char_start := some 0,
           char_end := some 1 },
         { heading := "2", level := 1, page := 0, char_start := some 4,
           char_end := some 5 }])).head?.map Span.start
      = ([{ heading := "1", level := 1, page := 0, char_start := some 0,
            char_end := some 1 },
          { heading := "2", level := 1, page := 0, char_start := some 4,
            char_end := some 5 }] : List HeadingRec).head?.map
          (fun hh => hh.char_start.getD 0) ∧
    (primarySpans (segmentSections "xxxxxxxxxx" []
        [{ heading := "1", level := 1, page := 0, char_start := some 0,
           char_end := some 1 },
         { heading := "2", level := 1, page := 0, char_start := some 4,
           char_end := some 5 }])).getLast?.map Span.stop
      = some ("xxxxxxxxxx" : String).length :=
  section_spans_contiguous "xxxxxxxxxx" [] _ (by decide) (by decide)

/-- C7: in `_merge_heading_fragments`, a bare-section-number heading
immediately followed by a same-page heading with font size within 1pt is
merged into one heading (texts joined by a space, `char_start` from the
first fragment, `char_end` from the second, level the minimum); the
same pair on different pages, or without close font sizes, is left
unmerged. -/
theorem merge_heading_fragments_pair (h1 h2 : HeadingRec)
    (hnum : sectionNumMatch (pyStrip h1.heading.data) = true) :
    ((h2.page = h1.page) →
      fontClose h1.font_size h2.font_size = true →
      mergeHeadingFragments [h1, h2] =
        [{ heading := h1.heading ++ " " ++ h2.heading,
           level := min h1.level h2.level, page := h1.page,
           char_start := h1.char_start, char_end := h2.char_end,
           font_size := none }]) ∧
    (h2.page ≠ h1.page → mergeHeadingFragments [h1, h2] = [h1, h2]) ∧
    (fontClose h1.font_size h2.font_size = false →
      mergeHeadingFragments [h1, h2] = [h1, h2]) := by
  refine ⟨?_, ?_, ?_⟩
  · intro hpage hfc
    have hc1 : case1Cond h1 h2 = true := by
      simp [case1Cond, hnum, hpage, hfc]
    simp [mergeHeadingFragments, mergeLoop, hc1, absorbFrags]
  · intro hpage
    have hbe : (h2.page == h1.page) = false := by
      simpa using hpage
    have hc1 : case1Cond h1 h2 = false := by
      simp [case1Cond, hbe]
    have hc2 : case2Cond h1 h2 = false := by
      simp [case2Cond, hbe]
    simp [mergeHeadingFragments, mergeLoop, hc1, hc2]
  · intro hfc
    have hc1 : case1Cond h1 h2 = false := by
      simp [case1Cond, hfc]
    have hc2 : case2Cond h1 h2 = false := by
      simp [case2Cond, hfc]
    simp [mergeHeadingFragments, mergeLoop, hc1, hc2]

/-- C7 witness: `"1"` + `"Introduction"`, same page, both 12.0pt (120
tenths), merge to
`"1 Introduction"` spanning both fragments; the same pair on another
page, or at 10pt vs 12pt, stays split. -/
theorem merge_heading_fragments_pair_witness :
    mergeHeadingFragments
        [{ heading := "1", level := 1, page := 0, char_start := some 0,
           char_end := some 1, font_size := some 120 },
         { heading := "Introduction", level := 1, page := 0, char_start := some 2,
           char_end := some 14, font_size := some 120 }]
      = [{ heading := "1 Introduction", level := 1, page := 0,
           char_start := some 0, char_end := some 14, font_size := none }] ∧
    mergeHeadingFragments
        [{ heading := "1", level := 1, page := 0, char_start := some 0,
           char_end := some 1, font_size := some 120 },
         { heading := "Introduction", level := 1, page := 1, char_start := some 2,
           char_end := some 14, font_size := some 120 }]
      = [{ heading := "1", level := 1, page := 0, char_start := some 0,
           char_end := some 1, font_size := some 120 },
         { heading := "Introduction", level := 1, page := 1, char_start := some 2,
           char_end := some 14, font_size := some 120 }] ∧
    mergeHeadingFragments
        [{ heading := "1", level := 1, page := 0, char_start := some 0,
           char_end := some 1, font_size := some 140 },
         { heading := "Introduction", level := 2, page := 0, char_start := some 2,
           char_end := some 14, font_size := some 100 }]
      = [{ heading := "1", level := 1, page := 0, char_start := some 0,
           char_end := some 1, font_size := some 140 },
         { heading := "Introduction", level := 2, page := 0, char_start := some 2,
           char_end := some 14, font_size := some 100 }] :=
  ⟨(merge_heading_fragments_pair _ _ (by decide)).1 rfl (by decide),
   (merge_heading_fragments_pair _ _ (by decide)).2.1 (by decide),
   (merge_heading_fragments_pair _ _ (by decide)).2.2 (by decide)⟩

/-- A non-empty prefix forces the scan position to be inside the text. -/
theorem isPrefixOf_drop_lt (s text : List Char) (pos : Nat)
    (hp : s.isPrefixOf (text.drop pos) = true) (hs : s ≠ []) :
    pos < text.length := by
  by_contra hge
  rw [List.drop_eq_nil_of_le (Nat.le_of_not_lt hge)] at hp
  rw [List.isPrefixOf_iff_prefix] at hp
  exact hs (List.prefix_nil.mp hp)

/-- When every occurrence of the surname in the text fails the word
boundary check, strategy 1 of `_find_cite_end_in_text` places nothing
and never sets `surname_found`. -/
theorem strat1F_allfail (text s y : List Char) (hs : s ≠ [])
    (hbound : ∀ i < text.length, s.isPrefixOf (text.drop i) = true →
      (0 < i ∧ (text.get? (i - 1)).any Char.isAlpha = true) ∨
        (text.get? (i + s.length)).any Char.isAlpha = true) :
    ∀ fuel pos found, strat1F text s y fuel pos found = (none, found) := by
  intro fuel
  induction fuel with
  | zero => intro pos found; rfl
  | succ n ih =>
    intro pos found
    rw [strat1F]
    by_cases hp : s.isPrefixOf (text.drop pos) = true
    · rcases hbound pos (isPrefixOf_drop_lt s text pos hp hs) hp with hb | hb
      · rw [if_pos hp, if_pos hb]
        exact ih _ _
      · by_cases hb1 : 0 < pos ∧ (text.get? (pos - 1)).any Char.isAlpha = true
        · rw [if_pos hp, if_pos hb1]
          exact ih _ _
        · rw [if_pos hp, if_neg hb1, if_pos hb]
          exact ih _ _
    · rw [if_neg hp]
      by_cases hl : text.length ≤ pos
      · rw [if_pos hl]
      · rw [if_neg hl]
        exact ih _ _

/-- C6 (amended): for citation text `"(Hu et al., 2022)"`, if every
occurrence of the surname `"Hu"` in the surface text fails the word
boundary check (a letter immediately before or after, as in `"Huh"`),
and the year `"2022"` does not occur exactly once in the text, then
`_find_cite_end_in_text` finds no placement.  (When the year occurs
exactly once the year-only fallback deliberately places the tag after
it, which is why the claim's unrestricted form fails.) -/
theorem find_cite_word_boundary (text : List Char)
    (hbound : ∀ i < text.length, "Hu".data.isPrefixOf (text.drop i) = true →
      (0 < i ∧ (text.get? (i - 1)).any Char.isAlpha = true) ∨
        (text.get? (i + 2)).any Char.isAlpha = true)
    (hocc : (occPositions text "2022".data).length ≠ 1) :
    findCiteEndInText text "(Hu et al., 2022)".data = none := by
  have hs1 : strat1 text "Hu".data "2022".data = (none, false) := by
    unfold strat1
    exact strat1F_allfail text "Hu".data "2022".data (by decide)
      (fun i hi hp => hbound i hi hp) _ 0 false
  have ha : reMatchAuthor "(Hu et al., 2022)".data = some "Hu".data := rfl
  have hy : reSearchYear "(Hu et al., 2022)".data = some "2022".data := rfl
  simp only [findCiteEndInText, ha, hy, hs1]
  cases ho : occPositions text "2022".data with
  | nil => simp [ho]
  | cons p tail =>
    cases tail with
    | nil =>
      exfalso
      apply hocc
      rw [ho]
      rfl
    | cons q t2 => simp [ho]

/-- C6 counterexample: the claim as stated is false — for the surface
text `"the-Explorer (LTE; Huh et al. , 2022 ), and Flora"`, which
contains `"Huh et al."` and contains `"Hu"` only inside the longer word
`"Huh"`, the year-only fallback still returns a placement (after
`"2022 )"`), not `None`. -/
theorem find_cite_word_boundary_counterexample :
    findCiteEndInText "the-Explorer (LTE; Huh et al. , 2022 ), and Flora".data
        "(Hu et al., 2022)".data = some 38 ∧
    (some 38 : Option Nat) ≠ none := by
  constructor
  · rfl
  · decide

/-- C6 witness: on `"Huh et al. wrote"` (no year at all) every `"Hu"`
occurrence fails the boundary check and the year occurs zero times, so
the amended theorem yields no placement. -/
theorem find_cite_word_boundary_witness :
    findCiteEndInText "Huh et al. wrote".data "(Hu et al., 2022)".data = none :=
  find_cite_word_boundary "Huh et al. wrote".data (by decide) (by decide)

/-- The first pass keeps exactly the first URI occurrence of each URL. -/
theorem uriGoto_filter_external (flat : List (Nat × RawLink)) :
    ∀ seen, (uriGotoLinks flat seen).filter (fun l => l.kind = "external")
      = (dedupUriLinks flat seen).map mkExtLink := by
  induction flat with
  | nil => intro seen; rfl
  | cons pl rest ih =>
    intro seen
    by_cases hk : pl.2.kindCode = 2
    · by_cases hu : pl.2.uri = "" ∨ pl.2.uri ∈ seen
      · have hdedup : dedupUriLinks (pl :: rest) seen = dedupUriLinks rest seen := by
          rw [dedupUriLinks, if_neg (fun hcon => by
            rcases hu with h | h
            · exact hcon.2.1 h
            · exact hcon.2.2 h)]
        rw [uriGotoLinks, if_pos hk, if_pos hu, hdedup]
        exact ih seen
      · push_neg at hu
        have hdedup : dedupUriLinks (pl :: rest) seen
            = pl :: dedupUriLinks rest (pl.2.uri :: seen) := by
          rw [dedupUriLinks, if_pos ⟨hk, hu.1, hu.2⟩]
        rw [uriGotoLinks, if_pos hk, if_neg (by push_neg; exact hu), hdedup]
        rw [List.filter_cons_of_pos (by simp [mkExtLink]), List.map_cons]
        exact congrArg (mkExtLink pl :: ·) (ih _)
    · have hdedup : dedupUriLinks (pl :: rest) seen = dedupUriLinks rest seen := by
        rw [dedupUriLinks, if_neg (fun hcon => hk hcon.1)]
      rw [uriGotoLinks, if_neg hk, hdedup]
      by_cases hg : pl.2.kindCode = 1
      · rw [if_pos hg, List.filter_cons_of_neg (by simp [mkGotoLink])]
        exact ih seen
      · rw [if_neg hg]
        exact ih seen

/-- Named-destination groups never produce external links. -/
theorem emitNamed_no_external (groups : List (NamedFrag × List NamedFrag)) :
    ∀ seen, (emitNamed groups seen).filter (fun l => l.kind = "external") = [] := by
  induction groups with
  | nil => intro seen; rfl
  | cons g t ih =>
    intro seen
    rw [emitNamed]
    by_cases hc : g.1.dest.startsWith "cite." = true ∨ g.1.dest ∉ seen
    · rw [if_pos hc, List.filter_cons_of_neg ?_]
      · exact ih _
      · by_cases hs : g.1.dest.startsWith "cite." = true <;> simp [mkNamedLink, hs]
    · rw [if_neg hc]
      exact ih seen

/-- URI/GOTO links carry no named destination. -/
theorem uriGoto_no_dest (flat : List (Nat × RawLink)) (d : String) (hd : d ≠ "") :
    ∀ seen, (uriGotoLinks flat seen).filter (fun l => l.dest_name = d) = [] := by
  induction flat with
  | nil => intro seen; rfl
  | cons pl rest ih =>
    intro seen
    rw [uriGotoLinks]
    by_cases hk : pl.2.kindCode = 2
    · rw [if_pos hk]
      by_cases hu : pl.2.uri = "" ∨ pl.2.uri ∈ seen
      · rw [if_pos hu]
        exact ih seen
      · rw [if_neg hu, List.filter_cons_of_neg (by simp [mkExtLink, Ne.symm hd])]
        exact ih _
    · rw [if_neg hk]
      by_cases hg : pl.2.kindCode = 1
      · rw [if_pos hg, List.filter_cons_of_neg (by simp [mkGotoLink, Ne.symm hd])]
        exact ih seen
      · rw [if_neg hg]
        exact ih seen

/-- Citation destinations: one link per group occurrence, never
deduplicated. -/
theorem emitNamed_cite_all (d : String) (hcite : d.startsWith "cite." = true)
    (groups : List (NamedFrag × List NamedFrag)) :
    ∀ seen, (emitNamed groups seen).filter (fun l => l.dest_name = d)
      = ((groups.filter (fun g => g.1.dest = d)).map mkNamedLink) := by
  induction groups with
  | nil => intro seen; rfl
  | cons g t ih =>
    intro seen
    rw [emitNamed]
    by_cases hd : g.1.dest = d
    · rw [if_pos (Or.inl (by rw [hd]; exact hcite))]
      rw [List.filter_cons_of_pos (by simp [mkNamedLink, hd]),
        List.filter_cons_of_pos (by simp [hd]), List.map_cons]
      exact congrArg (mkNamedLink g :: ·) (ih _)
    · by_cases hc : g.1.dest.startsWith "cite." = true ∨ g.1.dest ∉ seen
      · rw [if_pos hc, List.filter_cons_of_neg (by simp [mkNamedLink, hd]),
          List.filter_cons_of_neg (by simp [hd])]
        exact ih _
      · rw [if_neg hc, List.filter_cons_of_neg (by simp [hd])]
        exact ih seen

/-- Non-citation named destinations: only the first group occurrence
survives (none at all once the destination is already seen). -/
theorem emitNamed_internal_first (d : String)
    (hncite : d.startsWith "cite." = false)
    (groups : List (NamedFrag × List NamedFrag)) :
    ∀ seen, (emitNamed groups seen).filter (fun l => l.dest_name = d)
      = if d ∈ seen then []
        else ((groups.filter (fun g => g.1.dest = d)).take 1).map mkNamedLink := by
  induction groups with
  | nil =>
    intro seen
    by_cases hs : d ∈ seen <;> simp [emitNamed, hs]
  | cons g t ih =>
    intro seen
    rw [emitNamed]
    by_cases hd : g.1.dest = d
    · by_cases hs : d ∈ seen
      · have hcond : ¬ (g.1.dest.startsWith "cite." = true ∨ g.1.dest ∉ seen) := by
          rw [hd]
          simp [hncite, hs]
        rw [if_neg hcond, ih seen, if_pos hs, if_pos hs]
      · rw [if_pos (Or.inr (by rw [hd]; simpa using hs))]
        rw [List.filter_cons_of_pos (by simp [mkNamedLink, hd]), if_neg hs]
        rw [List.filter_cons_of_pos (by simp [hd])]
        rw [ih (g.1.dest :: seen), if_pos (by rw [hd]; exact List.mem_cons_self d seen)]
        simp
    · by_cases hc : g.1.dest.startsWith "cite." = true ∨ g.1.dest ∉ seen
      · rw [if_pos hc, List.filter_cons_of_neg (by simp [mkNamedLink, hd]),
          List.filter_cons_of_neg (by simp [hd])]
        rw [ih (g.1.dest :: seen)]
        refine if_congr ?_ rfl rfl
        constructor
        · intro h
          rcases List.mem_cons.mp h with h1 | h1
          · exact absurd h1.symm hd
          · exact h1
        · exact fun h => List.mem_cons_of_mem _ h
      · rw [if_neg hc, List.filter_cons_of_neg (by simp [hd])]
        exact ih seen

/-- The groups partition `named_in_order`: concatenating every group's
fragments in order restores the original fragment list. -/
theorem groupRuns_join_aux :
    ∀ (n : Nat) (l : List NamedFrag), l.length ≤ n →
      (groupRuns l).flatMap (fun g => g.1 :: g.2) = l := by
  intro n
  induction n with
  | zero =>
    intro l hl
    have hnil : l = [] := List.eq_nil_of_length_eq_zero (Nat.le_zero.mp hl)
    subst hnil
    rw [groupRuns, List.flatMap_nil]
  | succ n ih =>
    intro l hl
    cases l with
    | nil => rw [groupRuns, List.flatMap_nil]
    | cons f rest =>
      rw [groupRuns, List.flatMap_cons]
      rw [ih (rest.dropWhile (fun g => g.dest = f.dest ∧ g.page = f.page))
        (le_trans (List.dropWhile_sublist _).length_le (by simpa using hl))]
      simp [List.takeWhile_append_dropWhile]

/-- C8: in `_extract_links`, (i) the external links are exactly the
first URI occurrence of each non-empty URL; (ii) for a non-citation
named destination, only its first group occurrence produces a `Link`;
(iii) for a `cite.*` destination, every group occurrence produces its
own `Link` (with its own group span and text, via `mkNamedLink`); and
(iv) the groups are exactly the consecutive same-destination same-page
runs of the fragment list, in order. -/
theorem extract_links_dedup (pages : List (List RawLink)) :
    ((extractLinks pages).filter (fun l => l.kind = "external")
        = (dedupUriLinks (flatLinks pages) []).map mkExtLink) ∧
    (∀ d : String, d ≠ "" → d.startsWith "cite." = false →
      (extractLinks pages).filter (fun l => l.dest_name = d)
        = (((groupRuns (collectNamed pages)).filter
            (fun g => g.1.dest = d)).take 1).map mkNamedLink) ∧
    (∀ d : String, d.startsWith "cite." = true →
      (extractLinks pages).filter (fun l => l.dest_name = d)
        = ((groupRuns (collectNamed pages)).filter
            (fun g => g.1.dest = d)).map mkNamedLink) ∧
    ((groupRuns (collectNamed pages)).flatMap (fun g => g.1 :: g.2)
        = collectNamed pages) := by
  refine ⟨?_, ?_, ?_, ?_⟩
  · rw [extractLinks, List.filter_append, uriGoto_filter_external,
      emitNamed_no_external, List.append_nil]
  · intro d hd hncite
    rw [extractLinks, List.filter_append, uriGoto_no_dest _ d hd,
      emitNamed_internal_first d hncite, List.nil_append]
    simp
  · intro d hcite
    have hd : d ≠ "" := by
      intro h
      rw [h] at hcite
      exact absurd hcite (by decide)
    rw [extractLinks, List.filter_append, uriGoto_no_dest _ d hd,
      emitNamed_cite_all d hcite, List.nil_append]
  · exact groupRuns_join_aux (collectNamed pages).length _ le_rfl

/-- C8 witness: the dedup theorem applied to a concrete page with a
duplicate URL, a twice-cited `cite.adam` destination and a duplicated
plain named destination. -/
theorem extract_links_dedup_witness :
    (∀ d : String, d ≠ "" → d.startsWith "cite." = false →
      (extractLinks [[
        { kindCode := 2, uri := "https://a.com" },
        { kindCode := 2, uri := "https://a.com" },
        { kindCode := 4, nameddest := "cite.adam" },
        { kindCode := 4, nameddest := "cite.adam" },
        { kindCode := 4, nameddest := "sec:intro" },
        { kindCode := 4, nameddest := "cite.adam" },
        { kindCode := 4, nameddest := "sec:intro" }]]).filter
          (fun l => l.dest_name = d)
        = (((groupRuns (collectNamed [[
            { kindCode := 2, uri := "https://a.com" },
            { kindCode := 2, uri := "https://a.com" },
            { kindCode := 4, nameddest := "cite.adam" },
            { kindCode := 4, nameddest := "cite.adam" },
            { kindCode := 4, nameddest := "sec:intro" },
            { kindCode := 4, nameddest := "cite.adam" },
            { kindCode := 4, nameddest := "sec:intro" }]])).filter
            (fun g => g.1.dest = d)).take 1).map mkNamedLink) ∧
    (∀ d : String, d.startsWith "cite." = true →
      (extractLinks [[
        { kindCode := 2, uri := "https://a.com" },
        { kindCode := 2, uri := "https://a.com" },
        { kindCode := 4, nameddest := "cite.adam" },
        { kindCode := 4, nameddest := "cite.adam" },
        { kindCode := 4, nameddest := "sec:intro" },
        { kindCode := 4, nameddest := "cite.adam" },
        { kindCode := 4, nameddest := "sec:intro" }]]).filter
          (fun l => l.dest_name = d)
        = ((groupRuns (collectNamed [[
            { kindCode := 2, uri := "https://a.com" },
            { kindCode := 2, uri := "https://a.com" },
            { kindCode := 4, nameddest := "cite.adam" },
            { kindCode := 4, nameddest := "cite.adam" },
            { kindCode := 4, nameddest := "sec:intro" },
            { kindCode := 4, nameddest := "cite.adam" },
            { kindCode := 4, nameddest := "sec:intro" }]])).filter
            (fun g => g.1.dest = d)).map mkNamedLink) :=
  ⟨fun d hd hn => (extract_links_dedup _).2.1 d hd hn,
   fun d hc => (extract_links_dedup _).2.2.1 d hc⟩

/-- When each citation marker text occurs at most once among the
document's links and the registry's citation ref ids are pairwise
distinct, the citation span index contains at most one span per ref
id. -/
theorem citeSpanIndex_count_le_one (doc : Document) (registry : List RefEntry)
    (rid : String)
    (hdistinct : ((doc.links.filter (fun l => l.kind = "citation")).map
      (fun l => l.text)).Nodup)
    (hids : ((registry.filter (fun e => e.kind = "citation")).map
      (fun e => e.ref_id)).Nodup) :
    (buildCiteSpanIndex doc registry).countP (fun t => t.2.2 = rid) ≤ 1 := by
  have hinj : ∀ t1 t2, labelToRef registry t1 = some rid →
      labelToRef registry t2 = some rid → t1 = t2 := by
    intro t1 t2 h1 h2
    unfold labelToRef at h1 h2
    obtain ⟨e1, he1, hr1⟩ := Option.map_eq_some'.mp h1
    obtain ⟨e2, he2, hr2⟩ := Option.map_eq_some'.mp h2
    have hm1 : e1 ∈ registry.filter (fun e => e.kind = "citation" ∧ e.label = t1) := by
      obtain ⟨hne, heq⟩ := List.mem_getLast?_eq_getLast (Option.mem_def.mpr he1)
      rw [heq]
      exact List.getLast_mem hne
    have hm2 : e2 ∈ registry.filter (fun e => e.kind = "citation" ∧ e.label = t2) := by
      obtain ⟨hne, heq⟩ := List.mem_getLast?_eq_getLast (Option.mem_def.mpr he2)
      rw [heq]
      exact List.getLast_mem hne
    rw [List.mem_filter] at hm1 hm2
    have hk1 := of_decide_eq_true hm1.2
    have hk2 := of_decide_eq_true hm2.2
    have he12 : e1 = e2 := by
      refine List.inj_on_of_nodup_map hids ?_ ?_ (hr1.trans hr2.symm)
      · exact List.mem_filter.mpr ⟨hm1.1, by simp [hk1.1]⟩
      · exact List.mem_filter.mpr ⟨hm2.1, by simp [hk2.1]⟩
    rw [← hk1.2, ← hk2.2, he12]
  unfold buildCiteSpanIndex
  rw [(List.perm_insertionSort (fun a b => citeSpanLE a b = true) _).countP_eq]
  generalize hL : doc.links = links at hdistinct
  clear hL
  induction links with
  | nil => simp
  | cons l rest ih =>
    by_cases hc : l.kind = "citation"
    · have hnd : ((rest.filter (fun l => l.kind = "citation")).map
          (fun l => l.text)).Nodup := by
        rw [List.filter_cons_of_pos (by simp [hc]), List.map_cons] at hdistinct
        exact hdistinct.of_cons
      have hnotin : l.text ∉ (rest.filter (fun x => x.kind = "citation")).map
          (fun x => x.text) := by
        rw [List.filter_cons_of_pos (by simp [hc]), List.map_cons] at hdistinct
        exact (List.nodup_cons.mp hdistinct).1
      rw [List.filterMap_cons]
      cases hf : (if l.kind = "citation" then
          (labelToRef registry l.text).map
            (fun rid => (l.span.start, l.span.stop, rid))
        else none) with
      | none => exact ih hnd
      | some trip =>
        rw [if_pos hc] at hf
        obtain ⟨r0, hr0, htrip⟩ := Option.map_eq_some'.mp hf
        rw [List.countP_cons]
        by_cases hr : r0 = rid
        · have hzero : (rest.filterMap (fun l => if l.kind = "citation" then
              (labelToRef registry l.text).map
                (fun rid => (l.span.start, l.span.stop, rid))
              else none)).countP (fun t => t.2.2 = rid) = 0 := by
            rw [List.countP_eq_zero]
            intro trip2 hmem
            obtain ⟨l2, hl2mem, hl2⟩ := List.mem_filterMap.mp hmem
            by_cases hc2 : l2.kind = "citation"
            · rw [if_pos hc2] at hl2
              obtain ⟨r2, hr2, htrip2⟩ := Option.map_eq_some'.mp hl2
              simp only [← htrip2, decide_eq_true_eq]
              intro hr2rid
              rw [hr2rid] at hr2
              rw [hr] at hr0
              have := hinj l2.text l.text hr2 hr0
              exact hnotin (this ▸ (List.mem_map.mpr
                ⟨l2, List.mem_filter.mpr ⟨hl2mem, by simp [hc2]⟩, rfl⟩))
            · rw [if_neg hc2] at hl2
              exact absurd hl2 (by simp)
          rw [hzero]
          have : trip.2.2 = rid := by rw [← htrip, hr]
          simp [this]
        · have : ¬ trip.2.2 = rid := by rw [← htrip]; exact hr
          simp only [this, decide_False, Bool.false_eq_true, if_false,
            Nat.add_zero]
          exact ih hnd
    · rw [List.filterMap_cons, if_neg hc]
      refine ih ?_
      rwa [List.filter_cons_of_neg (by simp [hc])] at hdistinct

/-- The overlap scan never yields more spans for a ref id than the
index holds, and yields none for an already-seen ref id. -/
theorem collectOverlapping_countP (ss se : Nat) (rid : String) :
    ∀ (spans : List (Nat × Nat × String)) (seen : List String),
      (collectOverlapping spans ss se seen).countP (fun t => t.2.2 = rid)
        ≤ spans.countP (fun t => t.2.2 = rid) ∧
      (rid ∈ seen →
        (collectOverlapping spans ss se seen).countP (fun t => t.2.2 = rid) = 0) := by
  intro spans
  induction spans with
  | nil => intro seen; exact ⟨Nat.le_refl _, fun _ => rfl⟩
  | cons t rest ih =>
    intro seen
    obtain ⟨c1, c2, r0⟩ := t
    rw [collectOverlapping]
    by_cases hbreak : se ≤ c1
    · rw [if_pos hbreak]
      constructor
      · exact Nat.zero_le _
      · intro _; rfl
    · rw [if_neg hbreak]
      by_cases hkeep : ss < c2 ∧ r0 ∉ seen
      · rw [if_pos hkeep]
        constructor
        · rw [List.countP_cons, List.countP_cons]
          exact Nat.add_le_add (ih seen).1 (Nat.le_refl _)
        · intro hrid
          rw [List.countP_cons, (ih seen).2 hrid]
          have : ¬ (c1, c2, r0).2.2 = rid := by
            intro h
            have h' : r0 = rid := h
            exact hkeep.2 (by rw [h']; exact hrid)
          simp [this]
      · rw [if_neg hkeep, List.countP_cons]
        constructor
        · exact Nat.le_add_right_of_le (ih seen).1
        · exact fun hrid => (ih seen).2 hrid

/-- The placement loop places at most as many tags per ref id as it has
candidates, only grows `seen_refs`, and marks a ref id seen whenever it
places it. -/
theorem placeLoop_props (text : String) (r2l : List (String × Link)) (rid : String) :
    ∀ (overlapping : List (Nat × Nat × String)) (seen : List String),
      (placeLoop text r2l overlapping seen).1.countP (fun pr => pr.2 = rid)
        ≤ overlapping.countP (fun t => t.2.2 = rid) ∧
      (∀ x ∈ seen, x ∈ (placeLoop text r2l overlapping seen).2) ∧
      (1 ≤ (placeLoop text r2l overlapping seen).1.countP (fun pr => pr.2 = rid) →
        rid ∈ (placeLoop text r2l overlapping seen).2) := by
  intro overlapping
  induction overlapping with
  | nil =>
    intro seen
    exact ⟨Nat.le_refl _, fun x hx => hx, fun h => absurd h (by simp [placeLoop])⟩
  | cons t rest ih =>
    intro seen
    obtain ⟨c1, c2, r0⟩ := t
    cases hfind : (r2l.lookup r0).bind
        (fun link => findCiteEndInText text.data link.text.data) with
    | none =>
      have hred : placeLoop text r2l ((c1, c2, r0) :: rest) seen
          = placeLoop text r2l rest seen := by
        rw [placeLoop, hfind]
      rw [hred, List.countP_cons]
      exact ⟨Nat.le_add_right_of_le (ih seen).1, (ih seen).2.1,
        fun h => (ih seen).2.2 h⟩
    | some p =>
      have hred : placeLoop text r2l ((c1, c2, r0) :: rest) seen
          = ((p, r0) :: (placeLoop text r2l rest
              (if r0 ∈ seen then seen else seen ++ [r0])).1,
            (placeLoop text r2l rest
              (if r0 ∈ seen then seen else seen ++ [r0])).2) := by
        rw [placeLoop, hfind]
      have hseen' : ∀ x ∈ seen,
          x ∈ (if r0 ∈ seen then seen else seen ++ [r0]) := by
        intro x hx
        by_cases hr0 : r0 ∈ seen
        · rwa [if_pos hr0]
        · rw [if_neg hr0]
          exact List.mem_append_left _ hx
      have hr0seen' : r0 ∈ (if r0 ∈ seen then seen else seen ++ [r0]) := by
        by_cases hr0 : r0 ∈ seen
        · rwa [if_pos hr0]
        · rw [if_neg hr0]
          exact List.mem_append_right _ (List.mem_singleton_self r0)
      rw [hred]
      refine ⟨?_, ?_, ?_⟩
      · rw [List.countP_cons, List.countP_cons]
        exact Nat.add_le_add (ih _).1 (by simp)
      · intro x hx
        exact (ih _).2.1 x (hseen' x hx)
      · intro hcount
        by_cases hr : r0 = rid
        · exact (ih _).2.1 rid (hr ▸ hr0seen')
        · rw [List.countP_cons] at hcount
          have hite : ¬ ((p, r0).2 = rid) := by simpa using hr
          simp only [hite, decide_False, Bool.false_eq_true, if_false,
            Nat.add_zero] at hcount
          exact (ih _).2.2 hcount

/-- Threading one `seen_refs` through a sentence sequence places each
ref id at most once, and never places an already-seen ref id. -/
theorem renderRun_count (doc : Document) (registry : List RefEntry) (rid : String)
    (hone : (buildCiteSpanIndex doc registry).countP (fun t => t.2.2 = rid) ≤ 1) :
    ∀ (sents : List Sentence) (seen : List String),
      (rid ∈ seen → placedCount (renderRun doc registry sents seen).1 rid = 0) ∧
      placedCount (renderRun doc registry sents seen).1 rid ≤ 1 := by
  intro sents
  induction sents with
  | nil =>
    intro seen
    exact ⟨fun _ => rfl, by simp [renderRun, placedCount]⟩
  | cons s rest ih =>
    intro seen
    have hov := collectOverlapping_countP s.span.start s.span.stop rid
      (buildCiteSpanIndex doc registry) seen
    have hpl := placeLoop_props s.text (refToLink doc.links (labelToRef registry)) rid
      (collectOverlapping (buildCiteSpanIndex doc registry)
        s.span.start s.span.stop seen) seen
    have hred : renderRun doc registry (s :: rest) seen
        = ((annotatePlacements s.text doc registry s.span.start s.span.stop seen).1
            :: (renderRun doc registry rest
              (annotatePlacements s.text doc registry s.span.start s.span.stop seen).2).1,
          (renderRun doc registry rest
            (annotatePlacements s.text doc registry s.span.start s.span.stop seen).2).2) := by
      rw [renderRun]
    have hplaces : annotatePlacements s.text doc registry s.span.start s.span.stop seen
        = placeLoop s.text (refToLink doc.links (labelToRef registry))
            (collectOverlapping (buildCiteSpanIndex doc registry)
              s.span.start s.span.stop seen) seen := rfl
    have hsum : placedCount (renderRun doc registry (s :: rest) seen).1 rid
        = (annotatePlacements s.text doc registry s.span.start s.span.stop seen).1.countP
            (fun pr => pr.2 = rid)
          + placedCount (renderRun doc registry rest
              (annotatePlacements s.text doc registry s.span.start s.span.stop seen).2).1
              rid := by
      rw [hred]
      simp [placedCount]
    constructor
    · intro hseen
      rw [hsum]
      have hz : (annotatePlacements s.text doc registry
          s.span.start s.span.stop seen).1.countP (fun pr => pr.2 = rid) = 0 := by
        rw [hplaces]
        have := hpl.1
        rw [hov.2 hseen] at this
        exact Nat.le_zero.mp this
      have hmem : rid ∈ (annotatePlacements s.text doc registry
          s.span.start s.span.stop seen).2 := by
        rw [hplaces]
        exact hpl.2.1 rid hseen
      rw [hz, (ih _).1 hmem]
    · rw [hsum]
      by_cases hz : (annotatePlacements s.text doc registry
          s.span.start s.span.stop seen).1.countP (fun pr => pr.2 = rid) = 0
      · rw [hz]
        simpa using (ih _).2
      · have h1 : 1 ≤ (annotatePlacements s.text doc registry
            s.span.start s.span.stop seen).1.countP (fun pr => pr.2 = rid) :=
          Nat.one_le_iff_ne_zero.mpr hz
        have hmem : rid ∈ (annotatePlacements s.text doc registry
            s.span.start s.span.stop seen).2 := by
          rw [hplaces]
          exact hpl.2.2 (by rw [hplaces] at h1; exact h1)
        rw [(ih _).1 hmem, Nat.add_zero]
        calc (annotatePlacements s.text doc registry
            s.span.start s.span.stop seen).1.countP (fun pr => pr.2 = rid)
            ≤ (collectOverlapping (buildCiteSpanIndex doc registry)
                s.span.start s.span.stop seen).countP (fun t => t.2.2 = rid) := by
              rw [hplaces]; exact hpl.1
          _ ≤ (buildCiteSpanIndex doc registry).countP (fun t => t.2.2 = rid) := hov.1
          _ ≤ 1 := hone

/-- C2 (amended): running the annotator over a sentence sequence in
order with one shared `seen_refs` (as `render_section` does per
section), each citation ref id is placed AT MOST once — provided each
citation marker text occurs at most once among the document's links and
the registry's citation ids are pairwise distinct (both true of
`build_ref_registry` outputs); hence in a full-document render each
section's pass tags each ref id at most once.  A citation that no
sentence can place yields ZERO tags, so "exactly once" does not hold
(see the counterexample), and sections use fresh `seen_refs` sets. -/
theorem citation_tagged_at_most_once (doc : Document) (rid : String)
    (hdistinct : ((doc.links.filter (fun l => l.kind = "citation")).map
      (fun l => l.text)).Nodup)
    (hids : (((buildRefRegistry doc).filter (fun e => e.kind = "citation")).map
      (fun e => e.ref_id)).Nodup) :
    (∀ sents : List Sentence,
      placedCount (renderRun doc (buildRefRegistry doc) sents []).1 rid ≤ 1) ∧
    (∀ pl ∈ renderFullPlacements doc, placedCount pl rid ≤ 1) := by
  have hone := citeSpanIndex_count_le_one doc (buildRefRegistry doc) rid hdistinct hids
  constructor
  · intro sents
    exact (renderRun_count doc _ rid hone sents []).2
  · intro pl hpl
    obtain ⟨sec, _, hs⟩ := List.mem_map.mp hpl
    rw [← hs]
    exact (renderRun_count doc _ rid hone sec.sentences []).2

/-- C2 counterexample: a document whose only citation link has marker
text `"(foo)"` (no surname, no year, no brackets) is never placeable:
the registry lists `c1` but a full-document render emits ZERO `c1`
tags, refuting "exactly one inline tag — never zero". -/
theorem citation_tagged_once_counterexample :
    (buildRefRegistry unplaceableDoc).map RefEntry.ref_id = ["s1", "c1"] ∧
    renderFullPlacements unplaceableDoc = [[[]]] ∧
    placedCount [[]] "c1" = 0 ∧ (0 : Nat) ≠ 1 := by
  refine ⟨by decide, by decide, by decide, by decide⟩

/-- C2 witness: the at-most-once theorem on a concrete document with one
Kingma-style citation and one sentence. -/
theorem citation_tagged_at_most_once_witness :
    (∀ sents : List Sentence,
      placedCount (renderRun kingmaDoc (buildRefRegistry kingmaDoc) sents []).1
        "c1" ≤ 1) ∧
    (∀ pl ∈ renderFullPlacements kingmaDoc, placedCount pl "c1" ≤ 1) :=
  citation_tagged_at_most_once kingmaDoc "c1" (by decide) (by decide)

end Paper
